import Mathlib

/-!
Verification development for the rdgDB property-graph store.

The definitions below are a shallow embedding of the Go sources:
  - internal/graph (types.go): nodes, edges, property maps;
  - pkg/storage (graph.go): the in-memory graph engine;
  - pkg/wal (wal.go, snapshot.go): the write-ahead log and snapshots;
  - pkg/storage (persistent.go): the durability facade and recovery;
  - pkg/query (lexer.go, parser.go, executor.go): the query language.

Modelling conventions:
  - Go `uint64` identifiers are `Nat` (ids are allocated from 1 upward and
    never overflow in any reachable state);
  - Go `float64` is `Rat` (the claims under study concern which coercions
    happen, not rounding);
  - Go maps are association lists with lookup/replace/delete helpers;
    pointer mutation of a node held in a map is keyed in-place update;
  - timestamps and mutexes carry no information relevant to any claim and
    are omitted;
  - fallible operations return `Option`/`Except`; I/O failure of a WAL
    append is an explicit boolean oracle passed to the facade.
-/

namespace RdgDB

/-! ## Property values (internal/graph PropertyValue)

Go `PropertyValue` is `interface{}`; the values that actually occur are the
JSON scalars plus the Go numeric types produced by literals and callers. -/

inductive PropertyValue where
  | vStr : String → PropertyValue
  | vInt : Int → PropertyValue
  | vI64 : Int → PropertyValue
  | vF64 : Rat → PropertyValue
  | vF32 : Rat → PropertyValue
  | vBool : Bool → PropertyValue
  | vNull : PropertyValue
deriving DecidableEq, Repr

/-- Properties is a map of property names to values (Go `map[string]PropertyValue`). -/
abbrev Properties := List (String × PropertyValue)

/-! ## Generic finite-map helpers over association lists (Go maps). -/

/-- Go map read `m[k]`. -/
def mlookup {κ α : Type} [DecidableEq κ] : List (κ × α) → κ → Option α
  | [], _ => none
  | (k', v) :: rest, k => if k' = k then some v else mlookup rest k

/-- Go map write `m[k] = v`: replace the binding if present, else add it. -/
def mset {κ α : Type} [DecidableEq κ] : List (κ × α) → κ → α → List (κ × α)
  | [], k, v => [(k, v)]
  | (k', v') :: rest, k, v =>
    if k' = k then (k, v) :: rest else (k', v') :: mset rest k v

/-- Go map delete `delete(m, k)`. -/
def mdelete {κ α : Type} [DecidableEq κ] (m : List (κ × α)) (k : κ) : List (κ × α) :=
  m.filter (fun p => p.1 ≠ k)

/-- Pointer-style mutation of the value stored under a key (Go code mutates
the `*Node` held in the map, leaving the map itself unchanged). -/
def mupdate {κ α : Type} [DecidableEq κ] : List (κ × α) → κ → (α → α) → List (κ × α)
  | [], _, _ => []
  | (k', v) :: rest, k, f =>
    if k' = k then (k', f v) :: rest else (k', v) :: mupdate rest k f

/-! ## Graph types (internal/graph/types.go) -/

/-- Node represents a vertex in the graph. Timestamps and the mutex are omitted. -/
structure Node where
  id : Nat
  label : String
  properties : Properties
  outEdges : List Nat
  inEdges : List Nat
deriving DecidableEq, Repr

/-- Edge represents a relationship between two nodes. -/
structure Edge where
  id : Nat
  source : Nat
  target : Nat
  label : String
  properties : Properties
deriving DecidableEq, Repr

/-- NewNode creates a new node with the given label. -/
def NewNode (id : Nat) (label : String) : Node :=
  { id := id, label := label, properties := [], outEdges := [], inEdges := [] }

/-- NewEdge creates a new edge. -/
def NewEdge (id : Nat) (source target : Nat) (label : String) : Edge :=
  { id := id, source := source, target := target, label := label, properties := [] }

/-- Node.SetProperty (map assignment; the UpdatedAt bump is omitted). -/
def Node.SetProperty (n : Node) (key : String) (value : PropertyValue) : Node :=
  { n with properties := mset n.properties key value }

/-- Node.GetProperty. -/
def Node.GetProperty (n : Node) (key : String) : Option PropertyValue :=
  mlookup n.properties key

/-- Node.AddOutEdge appends an outgoing edge id. -/
def Node.AddOutEdge (n : Node) (edgeID : Nat) : Node :=
  { n with outEdges := n.outEdges ++ [edgeID] }

/-- Node.AddInEdge appends an incoming edge id. -/
def Node.AddInEdge (n : Node) (edgeID : Nat) : Node :=
  { n with inEdges := n.inEdges ++ [edgeID] }

/-- Edge.SetProperty. -/
def Edge.SetProperty (e : Edge) (key : String) (value : PropertyValue) : Edge :=
  { e with properties := mset e.properties key value }

/-- Edge.GetProperty. -/
def Edge.GetProperty (e : Edge) (key : String) : Option PropertyValue :=
  mlookup e.properties key

/-! ## In-memory graph engine (pkg/storage/graph.go) -/

/-- Graph represents the in-memory graph storage: the two primary indexes
and the two atomic id counters. -/
structure Graph where
  nodes : List (Nat × Node)
  edges : List (Nat × Edge)
  nextNodeID : Nat
  nextEdgeID : Nat
deriving DecidableEq, Repr

/-- NewGraph: empty maps, both counters start at 1 (0 reserved as invalid). -/
def NewGraph : Graph :=
  { nodes := [], edges := [], nextNodeID := 1, nextEdgeID := 1 }

/-- Build a node's property map the way AddNode does: iterate SetProperty
over the supplied properties (a `nil` map is the empty list). -/
def installNodeProps (node : Node) (properties : Properties) : Node :=
  properties.foldl (fun n kv => n.SetProperty kv.1 kv.2) node

/-- Likewise for edges. -/
def installEdgeProps (edge : Edge) (properties : Properties) : Edge :=
  properties.foldl (fun e kv => e.SetProperty kv.1 kv.2) edge

/-- Graph.AddNode: assign a fresh id by fetch-add, build the node, install
it into the node map. Never fails. -/
def Graph.AddNode (g : Graph) (label : String) (properties : Properties) :
    Node × Graph :=
  let nodeID := g.nextNodeID
  let node := installNodeProps (NewNode nodeID label) properties
  (node, { g with nodes := mset g.nodes nodeID node, nextNodeID := nodeID + 1 })

/-- Graph.GetNode: `none` models the "node %d not found" error. -/
def Graph.GetNode (g : Graph) (id : Nat) : Option Node :=
  mlookup g.nodes id

/-- Graph.GetEdge. -/
def Graph.GetEdge (g : Graph) (id : Nat) : Option Edge :=
  mlookup g.edges id

/-- Graph.AddEdge: verify both endpoints exist, allocate the edge id, store
the edge, then append to source.OutEdges and target.InEdges (in that
order, through the pointers held in the node map). -/
def Graph.AddEdge (g : Graph) (source target : Nat) (label : String)
    (properties : Properties) : Option (Edge × Graph) :=
  match g.GetNode source, g.GetNode target with
  | some _, some _ =>
    let edgeID := g.nextEdgeID
    let edge := installEdgeProps (NewEdge edgeID source target label) properties
    let g1 := { g with edges := mset g.edges edgeID edge, nextEdgeID := edgeID + 1 }
    let g2 := { g1 with nodes := mupdate g1.nodes source (fun n => n.AddOutEdge edgeID) }
    let g3 := { g2 with nodes := mupdate g2.nodes target (fun n => n.AddInEdge edgeID) }
    some (edge, g3)
  | _, _ => none

/-- NodeCount. -/
def Graph.NodeCount (g : Graph) : Nat := g.nodes.length

/-- EdgeCount. -/
def Graph.EdgeCount (g : Graph) : Nat := g.edges.length

/-- Remove the first occurrence of an edge id from an adjacency list
(the Go loop deletes the first match and breaks). -/
def removeFirst : List Nat → Nat → List Nat
  | [], _ => []
  | e :: es, x => if e = x then es else e :: removeFirst es x

/-- removeOutEdge on the node held in the map. -/
def Node.removeOutEdge (n : Node) (edgeID : Nat) : Node :=
  { n with outEdges := removeFirst n.outEdges edgeID }

/-- removeInEdge on the node held in the map. -/
def Node.removeInEdge (n : Node) (edgeID : Nat) : Node :=
  { n with inEdges := removeFirst n.inEdges edgeID }

/-- The `if node != nil { mutate it }` pattern: look a node up and apply a
pointer mutation to it when present, else leave the graph alone. -/
def updateNodeIfPresent (g : Graph) (nid : Nat) (f : Node → Node) : Graph :=
  match g.GetNode nid with
  | some _ => { g with nodes := mupdate g.nodes nid f }
  | none => g

/-- Graph.DeleteEdge: look the edge up, detach it from both endpoints'
adjacency lists (skipping missing endpoints), then delete it from the edge
map. `none` models the not-found error. -/
def Graph.DeleteEdge (g : Graph) (id : Nat) : Option Graph :=
  match g.GetEdge id with
  | none => none
  | some edge =>
    let g1 := updateNodeIfPresent g edge.source (fun n => n.removeOutEdge id)
    let g2 := updateNodeIfPresent g1 edge.target (fun n => n.removeInEdge id)
    some { g2 with edges := mdelete g2.edges id }

/-- DeleteNode's cascade discards DeleteEdge errors. -/
def Graph.deleteEdgeQuiet (g : Graph) (id : Nat) : Graph :=
  (g.DeleteEdge id).getD g

/-- Graph.DeleteNode: snapshot both adjacency lists, delete every listed
edge (errors tolerated), then remove the node. -/
def Graph.DeleteNode (g : Graph) (id : Nat) : Option Graph :=
  match g.GetNode id with
  | none => none
  | some node =>
    let g1 := node.outEdges.foldl Graph.deleteEdgeQuiet g
    let g2 := node.inEdges.foldl Graph.deleteEdgeQuiet g1
    some { g2 with nodes := mdelete g2.nodes id }

/-! ## Write-ahead log (pkg/wal/wal.go)

A `LogEntry` is `{index, timestamp, op_type, data}`; the operation payloads
are represented structurally (the `data` keys per op-type are fixed).
Timestamps are omitted. -/

inductive WalOp where
  | addNode (nodeID : Nat) (label : String) (properties : Properties)
  | addEdge (edgeID source target : Nat) (label : String) (properties : Properties)
  | deleteNode (nodeID : Nat)
  | deleteEdge (edgeID : Nat)
deriving DecidableEq, Repr

structure LogEntry where
  index : Nat
  op : WalOp
deriving DecidableEq, Repr

/-- The WAL: the records in the file, and the in-memory next index. -/
structure WAL where
  entries : List LogEntry
  nextIndex : Nat
deriving DecidableEq, Repr

/-- A freshly created WAL over an empty directory. -/
def WAL.new : WAL := { entries := [], nextIndex := 1 }

/-- loadLastIndex: scan the file, `nextIndex = max(index) + 1` (1 if empty). -/
def loadLastIndex (entries : List LogEntry) : Nat :=
  (entries.foldl (fun acc e => max acc e.index) 0) + 1

/-- NewWAL over an existing log file (reopen): keep the records, recompute
the next index from the maximum on file. -/
def WAL.reopen (entries : List LogEntry) : WAL :=
  { entries := entries, nextIndex := loadLastIndex entries }

/-- WAL.Append (successful path): stamp the next index, write, fsync,
advance the index and return the assigned index. -/
def WAL.Append (w : WAL) (op : WalOp) : Nat × WAL :=
  let entry : LogEntry := { index := w.nextIndex, op := op }
  (w.nextIndex, { entries := w.entries ++ [entry], nextIndex := w.nextIndex + 1 })

/-- The retention loop of Truncate: walk the file in order, keeping every
record with `entry.Index >= beforeIndex`. -/
def entriesToKeep : List LogEntry → Nat → List LogEntry
  | [], _ => []
  | e :: es, beforeIndex =>
    if beforeIndex ≤ e.index then e :: entriesToKeep es beforeIndex
    else entriesToKeep es beforeIndex

/-- WAL.Truncate (successful path): rewrite the log with only the retained
records. `nextIndex` is not touched. -/
def WAL.Truncate (w : WAL) (beforeIndex : Nat) : WAL :=
  { w with entries := entriesToKeep w.entries beforeIndex }

/-- WAL.GetCurrentIndex returns `nextIndex - 1` (0 if no entries ever). -/
def WAL.GetCurrentIndex (w : WAL) : Nat := w.nextIndex - 1

/-! ## Snapshots (pkg/wal/snapshot.go) -/

structure SnapshotMetadata where
  index : Nat
  nodeCount : Nat
  edgeCount : Nat
deriving DecidableEq, Repr

/-- A point-in-time state of the graph as stored in a snapshot file. -/
structure Snapshot where
  metadata : SnapshotMetadata
  nodes : List Node
  edges : List Edge
deriving DecidableEq, Repr

/-! ## JSON round-trip of persisted values

WAL records and snapshots are serialized as JSON; on decode every number
comes back as a Go `float64` (`entry.Data["properties"]` is decoded into
`map[string]interface{}`). Identifiers and indexes are re-narrowed to
integers by the recovery code, but property values keep the decoded type:
an `int` property is reloaded as a `float64`. -/

/-- The value a scalar property has after a JSON write/read cycle. -/
def jsonVal : PropertyValue → PropertyValue
  | .vInt i => .vF64 (i : Rat)
  | .vI64 i => .vF64 (i : Rat)
  | .vF32 q => .vF64 q
  | .vF64 q => .vF64 q
  | .vStr s => .vStr s
  | .vBool b => .vBool b
  | .vNull => .vNull

def jsonProps (ps : Properties) : Properties :=
  ps.map (fun kv => (kv.1, jsonVal kv.2))

/-- A WAL record as it reads back from `wal.log`. -/
def jsonEntry (e : LogEntry) : LogEntry :=
  { e with op :=
      match e.op with
      | .addNode id label ps => .addNode id label (jsonProps ps)
      | .addEdge id s t label ps => .addEdge id s t label (jsonProps ps)
      | .deleteNode id => .deleteNode id
      | .deleteEdge id => .deleteEdge id }

def jsonNode (n : Node) : Node := { n with properties := jsonProps n.properties }

def jsonEdge (e : Edge) : Edge := { e with properties := jsonProps e.properties }

/-- A graph whose every property value went through a JSON write/read cycle:
this is what §4.5's recovery can rebuild at best. -/
def jsonifyGraph (g : Graph) : Graph :=
  { g with nodes := g.nodes.map (fun kv => (kv.1, jsonNode kv.2)),
           edges := g.edges.map (fun kv => (kv.1, jsonEdge kv.2)) }

/-! ## Persistent facade (pkg/storage/persistent.go) -/

structure PGraph where
  graph : Graph
  wal : WAL
  walEnabled : Bool
deriving DecidableEq, Repr

/-- PersistentGraph.AddNode. `appendOk` is the oracle for the WAL append's
disk write: on failure the in-memory change is rolled back and the error
returned. The facade's state is returned in both cases. -/
def PGraph.AddNode (pg : PGraph) (appendOk : Bool) (label : String)
    (properties : Properties) : Except String Node × PGraph :=
  let res := pg.graph.AddNode label properties
  let node := res.1
  let g1 := res.2
  if pg.walEnabled then
    if appendOk then
      let w := (pg.wal.Append (.addNode node.id label properties)).2
      (.ok node, { pg with graph := g1, wal := w })
    else
      let g2 := (g1.DeleteNode node.id).getD g1
      (.error "failed to log node addition", { pg with graph := g2 })
  else
    (.ok node, { pg with graph := g1 })

/-- PersistentGraph.AddEdge, with compensating DeleteEdge on log failure. -/
def PGraph.AddEdge (pg : PGraph) (appendOk : Bool) (source target : Nat)
    (label : String) (properties : Properties) : Except String Edge × PGraph :=
  match pg.graph.AddEdge source target label properties with
  | none => (.error "edge endpoints not found", pg)
  | some (edge, g1) =>
    if pg.walEnabled then
      if appendOk then
        let w := (pg.wal.Append (.addEdge edge.id source target label properties)).2
        (.ok edge, { pg with graph := g1, wal := w })
      else
        let g2 := (g1.DeleteEdge edge.id).getD g1
        (.error "failed to log edge addition", { pg with graph := g2 })
    else
      (.ok edge, { pg with graph := g1 })

/-- PersistentGraph.DeleteNode: delete, then log (no rollback on failure). -/
def PGraph.DeleteNode (pg : PGraph) (appendOk : Bool) (id : Nat) :
    Except String Unit × PGraph :=
  match pg.graph.DeleteNode id with
  | none => (.error "node not found", pg)
  | some g1 =>
    if pg.walEnabled then
      if appendOk then
        let w := (pg.wal.Append (.deleteNode id)).2
        (.ok (), { pg with graph := g1, wal := w })
      else
        (.error "failed to log node deletion", { pg with graph := g1 })
    else
      (.ok (), { pg with graph := g1 })

/-- PersistentGraph.DeleteEdge: delete, then log (no rollback on failure). -/
def PGraph.DeleteEdge (pg : PGraph) (appendOk : Bool) (id : Nat) :
    Except String Unit × PGraph :=
  match pg.graph.DeleteEdge id with
  | none => (.error "edge not found", pg)
  | some g1 =>
    if pg.walEnabled then
      if appendOk then
        let w := (pg.wal.Append (.deleteEdge id)).2
        (.ok (), { pg with graph := g1, wal := w })
      else
        (.error "failed to log edge deletion", { pg with graph := g1 })
    else
      (.ok (), { pg with graph := g1 })

/-- applyWALEntry applies a single decoded WAL entry to the graph during
recovery (Delete errors are discarded by the source). -/
def applyWALEntry (g : Graph) (e : LogEntry) : Graph :=
  match e.op with
  | .addNode nodeID label props =>
    let node := installNodeProps (NewNode nodeID label) props
    let g1 := { g with nodes := mset g.nodes nodeID node }
    if g1.nextNodeID ≤ nodeID then { g1 with nextNodeID := nodeID + 1 } else g1
  | .addEdge edgeID source target label props =>
    let edge := installEdgeProps (NewEdge edgeID source target label) props
    let g1 := { g with edges := mset g.edges edgeID edge }
    let g2 := if g1.nextEdgeID ≤ edgeID then { g1 with nextEdgeID := edgeID + 1 } else g1
    let g3 := updateNodeIfPresent g2 source (fun n => n.AddOutEdge edgeID)
    updateNodeIfPresent g3 target (fun n => n.AddInEdge edgeID)
  | .deleteNode nodeID => (g.DeleteNode nodeID).getD g
  | .deleteEdge edgeID => (g.DeleteEdge edgeID).getD g

/-- The snapshot-restore half of Recover: rehydrate the maps directly and
advance the counters past every observed id. -/
def restoreSnapshot (g : Graph) (snap : Snapshot) : Graph :=
  let g1 := snap.nodes.foldl
    (fun g n =>
      let g' := { g with nodes := mset g.nodes n.id n }
      if g'.nextNodeID ≤ n.id then { g' with nextNodeID := n.id + 1 } else g') g
  snap.edges.foldl
    (fun g e =>
      let g' := { g with edges := mset g.edges e.id e }
      if g'.nextEdgeID ≤ e.id then { g' with nextEdgeID := e.id + 1 } else g') g1

/-- Recover: start from a fresh graph, load the latest snapshot if one
exists, then replay every WAL record as read back from disk. -/
def recoverGraph (snapshot : Option Snapshot) (walEntries : List LogEntry) : Graph :=
  let g0 := NewGraph
  let g1 :=
    match snapshot with
    | some snap => restoreSnapshot g0 snap
    | none => g0
  walEntries.foldl (fun g e => applyWALEntry g (jsonEntry e)) g1

/-! ## Facade mutation sequences (for the persistence round-trip) -/

inductive Mut where
  | addNode (label : String) (properties : Properties)
  | addEdge (source target : Nat) (label : String) (properties : Properties)
  | deleteNode (id : Nat)
  | deleteEdge (id : Nat)
deriving DecidableEq, Repr

/-- One facade call with a functioning disk (failed calls leave the state
unchanged and log nothing). -/
def PGraph.applyMut (pg : PGraph) (m : Mut) : PGraph :=
  match m with
  | .addNode label ps => (pg.AddNode true label ps).2
  | .addEdge s t label ps => (pg.AddEdge true s t label ps).2
  | .deleteNode id => (pg.DeleteNode true id).2
  | .deleteEdge id => (pg.DeleteEdge true id).2

/-- NewPersistentGraph over empty directories (recovery is a no-op there). -/
def PGraph.new : PGraph := { graph := NewGraph, wal := WAL.new, walEnabled := true }

/-- Run a sequence of facade mutations from empty directories. -/
def PGraph.runMuts (ms : List Mut) : PGraph :=
  ms.foldl PGraph.applyMut PGraph.new

/-! ## Expression comparison (pkg/query/executor.go) -/

/-- toFloat: convert to float64 for comparison; unknown types become 0. -/
def toFloat : PropertyValue → Rat
  | .vInt i => (i : Rat)
  | .vI64 i => (i : Rat)
  | .vF64 q => q
  | .vF32 q => q
  | _ => 0

/-- compareNumbers: three-way sign of the float64 comparison. -/
def compareNumbers (a b : PropertyValue) : Int :=
  if toFloat a < toFloat b then -1
  else if toFloat b < toFloat a then 1
  else 0

/-- Whether the dynamic type is bool (the `left.(bool)` type assertion). -/
def PropertyValue.isBool : PropertyValue → Bool
  | .vBool _ => true
  | _ => false

/-- compareValues: the operator switch of the executor. `=`/`!=` use
structural equality (reflect.DeepEqual); AND/OR require booleans; the
ordered comparisons go through compareNumbers. -/
def compareValues (left : PropertyValue) (op : String) (right : PropertyValue) :
    Except String Bool :=
  if op = "=" then .ok (decide (left = right))
  else if op = "!=" then .ok (!(decide (left = right)))
  else if op = "AND" then
    match left, right with
    | .vBool l, .vBool r => .ok (l && r)
    | _, _ => .error "AND requires boolean operands"
  else if op = "OR" then
    match left, right with
    | .vBool l, .vBool r => .ok (l || r)
    | _, _ => .error "OR requires boolean operands"
  else if op = ">" then .ok (decide (0 < compareNumbers left right))
  else if op = "<" then .ok (decide (compareNumbers left right < 0))
  else if op = ">=" then .ok (decide (0 ≤ compareNumbers left right))
  else if op = "<=" then .ok (decide (compareNumbers left right ≤ 0))
  else .error ("unknown operator: " ++ op)

/-! ## Query lexer (pkg/query/lexer.go)

The Go lexer walks a byte string with position/readPosition/ch; the
embedding consumes a `List Char` instead (queries are ASCII). Line/column
bookkeeping carries no information for the claims and is omitted. -/

inductive TokenType where
  | eof | illegal
  | matchT | whereT | returnT | limitT | orderBy | andT | orT
  | identifier | stringT | number | trueT | falseT
  | equal | notEqual | less | lessEqual | greater | greaterEqual
  | lparen | rparen | lbracket | rbracket | lbrace | rbrace
  | comma | dot | colon | arrow | leftArrow | dash | star | dotdot
deriving DecidableEq, Repr

structure Token where
  type : TokenType
  literal : String
deriving DecidableEq, Repr

def isLetter (c : Char) : Bool :=
  ('a' ≤ c && c ≤ 'z') || ('A' ≤ c && c ≤ 'Z')

def isDigit (c : Char) : Bool :=
  '0' ≤ c && c ≤ '9'

/-- The identifier continuation set of readIdentifier. -/
def identChar (c : Char) : Bool :=
  isLetter c || isDigit c || c = '_'

/-- skipWhitespace. -/
def skipWhitespace : List Char → List Char
  | [] => []
  | c :: cs =>
    if c = ' ' || c = '\t' || c = '\n' || c = '\r' then skipWhitespace cs
    else c :: cs

/-- readIdentifier's scan: the maximal run of letters/digits/underscores. -/
def takeIdent : List Char → List Char × List Char
  | [] => ([], [])
  | c :: cs =>
    if identChar c then
      let r := takeIdent cs
      (c :: r.1, r.2)
    else ([], c :: cs)

/-- The digit runs inside readNumber. -/
def takeDigits : List Char → List Char × List Char
  | [] => ([], [])
  | c :: cs =>
    if isDigit c then
      let r := takeDigits cs
      (c :: r.1, r.2)
    else ([], c :: cs)

/-- peekChar: the next character, 0 at the end of input. -/
def peekCh (cs : List Char) : Char := cs.headD (Char.ofNat 0)

/-- readNumber: digits, then (`l.ch == '.' && isDigit(l.peekChar())`) a
fractional part. -/
def readNumber (input : List Char) : List Char × List Char :=
  let d := takeDigits input
  match d.2 with
  | c :: cs =>
    if c = '.' && isDigit (peekCh cs) then
      let d2 := takeDigits cs
      (d.1 ++ '.' :: d2.1, d2.2)
    else d
  | [] => d

/-- readString's scan after the opening quote: the literal runs to the
matching quote (consumed, not included) or to the end of input; a
backslash directly before the matching quote keeps both characters in the
literal and continues past them. -/
def readStringBody (quote : Char) : List Char → List Char × List Char
  | [] => ([], [])
  | [c] => if c = quote then ([], []) else ([c], [])
  | c :: d :: ds =>
    if c = quote then ([], d :: ds)
    else if c = '\\' && d = quote then
      let r := readStringBody quote ds
      (c :: d :: r.1, r.2)
    else
      let r := readStringBody quote (d :: ds)
      (c :: r.1, r.2)

/-- strings.ToUpper (ASCII: every identifier the lexer feeds in is ASCII). -/
def toUpperStr (s : String) : String :=
  String.mk (s.toList.map Char.toUpper)

/-- The keywords table probed through strings.ToUpper. The table's boolean
keys are lower-case, exactly as in the source. -/
def lookupKeyword (ident : String) : TokenType :=
  let u := toUpperStr ident
  if u = "MATCH" then .matchT
  else if u = "WHERE" then .whereT
  else if u = "RETURN" then .returnT
  else if u = "LIMIT" then .limitT
  else if u = "ORDER" then .orderBy
  else if u = "BY" then .orderBy
  else if u = "AND" then .andT
  else if u = "OR" then .orT
  else if u = "true" then .trueT
  else if u = "false" then .falseT
  else .identifier

/-- The switch of NextToken on the current (non-whitespace) character. -/
def tokenFrom (c : Char) (cs : List Char) : Token × List Char :=
  if c = '(' then ({ type := .lparen, literal := "(" }, cs)
    else if c = ')' then ({ type := .rparen, literal := ")" }, cs)
    else if c = '[' then ({ type := .lbracket, literal := "[" }, cs)
    else if c = ']' then ({ type := .rbracket, literal := "]" }, cs)
    else if c = '{' then ({ type := .lbrace, literal := "\x7b" }, cs)
    else if c = '}' then ({ type := .rbrace, literal := "\x7d" }, cs)
    else if c = ',' then ({ type := .comma, literal := "," }, cs)
    else if c = '.' then
      if peekCh cs = '.' then ({ type := .dotdot, literal := ".." }, cs.tail)
      else ({ type := .dot, literal := "." }, cs)
    else if c = ':' then ({ type := .colon, literal := ":" }, cs)
    else if c = '*' then ({ type := .star, literal := "*" }, cs)
    else if c = '-' then
      if peekCh cs = '>' then ({ type := .arrow, literal := "->" }, cs.tail)
      else ({ type := .dash, literal := "-" }, cs)
    else if c = '<' then
      if peekCh cs = '-' then ({ type := .leftArrow, literal := "<-" }, cs.tail)
      else if peekCh cs = '=' then ({ type := .lessEqual, literal := "<=" }, cs.tail)
      else ({ type := .less, literal := "<" }, cs)
    else if c = '>' then
      if peekCh cs = '=' then ({ type := .greaterEqual, literal := ">=" }, cs.tail)
      else ({ type := .greater, literal := ">" }, cs)
    else if c = '=' then ({ type := .equal, literal := "=" }, cs)
    else if c = '!' then
      if peekCh cs = '=' then ({ type := .notEqual, literal := "!=" }, cs.tail)
      else ({ type := .illegal, literal := "!" }, cs)
    else if c = '"' || c = '\'' then
      let r := readStringBody c cs
      ({ type := .stringT, literal := String.mk r.1 }, r.2)
    else if isLetter c then
      let r := takeIdent (c :: cs)
      let lit := String.mk r.1
      ({ type := lookupKeyword lit, literal := lit }, r.2)
    else if isDigit c then
      let r := readNumber (c :: cs)
      ({ type := .number, literal := String.mk r.1 }, r.2)
    else ({ type := .illegal, literal := String.mk [c] }, cs)

/-- NextToken: skip whitespace, then dispatch on the current character. -/
def nextToken (input : List Char) : Token × List Char :=
  match skipWhitespace input with
  | [] => ({ type := .eof, literal := "" }, [])
  | c :: cs => tokenFrom c cs

/-- The token stream: NextToken until the EOF token, which is included.
The fuel is one more than the input length; NextToken consumes at least
one character whenever it does not return EOF. -/
def lexAll : Nat → List Char → List Token
  | 0, _ => []
  | fuel + 1, input =>
    let r := nextToken input
    if r.1.type = .eof then [r.1]
    else r.1 :: lexAll fuel r.2

def lex (s : String) : List Token :=
  lexAll (s.length + 1) s.toList

/-! Token-stream rendering, for the idempotence property: the tokens up to
EOF, and their literals joined with single spaces. -/

/-- The produced tokens without the terminating EOF token. -/
def tokensOf (s : String) : List Token :=
  (lex s).dropLast

/-- The whitespace-separated concatenation of the literals. -/
def renderChars : List Token → List Char
  | [] => []
  | [t] => t.literal.toList
  | t :: ts => t.literal.toList ++ ' ' :: renderChars ts

def renderTokens (ts : List Token) : String :=
  String.mk (renderChars ts)

/-! The spelling each token type can carry in the lexer's output. -/

/-- Identifier spelling: a letter followed by letters/digits/underscores. -/
def identShapeL : List Char → Bool
  | [] => false
  | c :: cs => isLetter c && cs.all identChar

/-- Number spelling: a digit run, optionally a dot and a second digit run. -/
def numShapeL (cs : List Char) : Bool :=
  let r := takeDigits cs
  decide (r.1 ≠ []) &&
    (match r.2 with
     | [] => true
     | p :: rest2 =>
       p = '.' &&
         (let r2 := takeDigits rest2
          decide (r2.1 ≠ []) && decide (r2.2 = [])))

/-- The literal spelling a (non-string, non-illegal) token of each type has
in the lexer's output. -/
def litShape : TokenType → String → Bool
  | .eof, lit => lit = ""
  | .illegal, _ => false
  | .stringT, _ => false
  | .identifier, lit => identShapeL lit.toList && lookupKeyword lit == .identifier
  | .matchT, lit => identShapeL lit.toList && lookupKeyword lit == .matchT
  | .whereT, lit => identShapeL lit.toList && lookupKeyword lit == .whereT
  | .returnT, lit => identShapeL lit.toList && lookupKeyword lit == .returnT
  | .limitT, lit => identShapeL lit.toList && lookupKeyword lit == .limitT
  | .orderBy, lit => identShapeL lit.toList && lookupKeyword lit == .orderBy
  | .andT, lit => identShapeL lit.toList && lookupKeyword lit == .andT
  | .orT, lit => identShapeL lit.toList && lookupKeyword lit == .orT
  | .trueT, lit => identShapeL lit.toList && lookupKeyword lit == .trueT
  | .falseT, lit => identShapeL lit.toList && lookupKeyword lit == .falseT
  | .number, lit => numShapeL lit.toList
  | .equal, lit => lit = "="
  | .notEqual, lit => lit = "!="
  | .less, lit => lit = "<"
  | .lessEqual, lit => lit = "<="
  | .greater, lit => lit = ">"
  | .greaterEqual, lit => lit = ">="
  | .lparen, lit => lit = "("
  | .rparen, lit => lit = ")"
  | .lbracket, lit => lit = "["
  | .rbracket, lit => lit = "]"
  | .lbrace, lit => lit = "\x7b"
  | .rbrace, lit => lit = "\x7d"
  | .comma, lit => lit = ","
  | .dot, lit => lit = "."
  | .colon, lit => lit = ":"
  | .arrow, lit => lit = "->"
  | .leftArrow, lit => lit = "<-"
  | .dash, lit => lit = "-"
  | .star, lit => lit = "*"
  | .dotdot, lit => lit = ".."

/-! ## AST (pkg/query/ast.go) -/

/-- Edge direction; `out` is Go's zero value (`DirectionOut = iota`), so the
parser's `edge.Direction == 0` test is `= .out` here. -/
inductive Direction where
  | out | inn | both
deriving DecidableEq, Repr

structure NodePattern where
  varName : String
  label : String
  properties : List (String × PropertyValue)
deriving DecidableEq, Repr

structure EdgePattern where
  varName : String
  type : String
  direction : Direction
deriving DecidableEq, Repr

structure Pattern where
  nodes : List NodePattern
  edges : List EdgePattern
deriving DecidableEq, Repr

structure MatchClause where
  patterns : List Pattern
deriving DecidableEq, Repr

inductive Expr where
  | lit (value : PropertyValue)
  | ident (name : String)
  | propAccess (varName property : String)
  | binary (left : Expr) (op : String) (right : Expr)
deriving DecidableEq, Repr

structure WhereClause where
  expr : Expr
deriving DecidableEq, Repr

structure ReturnItem where
  expr : Expr
  aliasName : String
deriving DecidableEq, Repr

structure ReturnClause where
  items : List ReturnItem
  distinct : Bool
deriving DecidableEq, Repr

structure Query where
  matchClause : Option MatchClause
  whereClause : Option WhereClause
  returnClause : Option ReturnClause
  limit : Option Int
deriving DecidableEq, Repr

/-! ## Parser (pkg/query/parser.go)

The Go parser pulls tokens lazily (current/peek) from the lexer; since the
lexer's state is independent of the parser, this is the same as recursive
descent over the pre-lexed token list. The `p.errors` slice stays empty on
every path the source can take (`expectPeek` is never called), so `Parse`
fails exactly when a parse function returns an error. -/

def curTok (ts : List Token) : Token := ts.headD { type := .eof, literal := "" }

def advT (ts : List Token) : List Token := ts.tail

def peekTok (ts : List Token) : Token := (advT ts).headD { type := .eof, literal := "" }

/-- `a * 10 + digit` accumulation of strconv on an all-digit string. -/
def digitsToNat (cs : List Char) : Nat :=
  cs.foldl (fun a c => a * 10 + (c.toNat - 48)) 0

/-- strconv.Atoi restricted to the literals the lexer can produce (digit
runs succeed; anything containing a dot fails). -/
def atoi (s : String) : Option Int :=
  if s.toList ≠ [] && s.toList.all isDigit then some (digitsToNat s.toList) else none

/-- strconv.ParseFloat restricted to the lexer's number literals
(`digits` or `digits.digits`). -/
def parseFloat (s : String) : Option Rat :=
  match s.split (· = '.') with
  | [a] =>
    if a.toList ≠ [] && a.toList.all isDigit then some (digitsToNat a.toList : Rat) else none
  | [a, b] =>
    if a.toList ≠ [] && a.toList.all isDigit && b.toList ≠ [] && b.toList.all isDigit then
      some ((digitsToNat a.toList : Rat) + (digitsToNat b.toList : Rat) / ((10 : Rat) ^ b.length))
    else none
  | _ => none

/-- parseLiteral: string, number (int first, then float), true, false. -/
def parseLiteral (ts : List Token) : Except String (Expr × List Token) :=
  if (curTok ts).type = .stringT then .ok (.lit (.vStr (curTok ts).literal), advT ts)
  else if (curTok ts).type = .number then
    match atoi (curTok ts).literal with
    | some v => .ok (.lit (.vInt v), advT ts)
    | none =>
      match parseFloat (curTok ts).literal with
      | some q => .ok (.lit (.vF64 q), advT ts)
      | none => .error ("invalid number: " ++ (curTok ts).literal)
  else if (curTok ts).type = .trueT then .ok (.lit (.vBool true), advT ts)
  else if (curTok ts).type = .falseT then .ok (.lit (.vBool false), advT ts)
  else .error "unexpected token"

/-- parsePrimaryExpression: property access, bare identifier, or literal. -/
def parsePrimaryExpression (ts : List Token) : Except String (Expr × List Token) :=
  if (curTok ts).type = .identifier && (peekTok ts).type = .dot then
    let v := (curTok ts).literal
    let ts1 := advT (advT ts)
    if (curTok ts1).type = .identifier then .ok (.propAccess v (curTok ts1).literal, advT ts1)
    else .error "expected property name after ."
  else if (curTok ts).type = .identifier then
    .ok (.ident (curTok ts).literal, advT ts)
  else parseLiteral ts

def isComparisonOp (t : TokenType) : Bool :=
  t = .equal || t = .notEqual || t = .less || t = .lessEqual || t = .greater || t = .greaterEqual

/-- parseComparisonExpression. -/
def parseComparisonExpression (ts : List Token) : Except String (Expr × List Token) :=
  match parsePrimaryExpression ts with
  | .error e => .error e
  | .ok (left, ts1) =>
    if isComparisonOp (curTok ts1).type then
      let op := (curTok ts1).literal
      match parsePrimaryExpression (advT ts1) with
      | .error e => .error e
      | .ok (right, ts2) => .ok (.binary left op right, ts2)
    else .ok (left, ts1)

/-- The `for currentTokenIs(TokenAnd)` loop; each iteration consumes the
AND token, so the remaining token count is enough fuel. -/
def parseAndLoop : Nat → Expr → List Token → Except String (Expr × List Token)
  | 0, left, ts => .ok (left, ts)
  | fuel + 1, left, ts =>
    if (curTok ts).type = .andT then
      let op := (curTok ts).literal
      match parseComparisonExpression (advT ts) with
      | .error e => .error e
      | .ok (right, ts1) => parseAndLoop fuel (.binary left op right) ts1
    else .ok (left, ts)

def parseAndExpression (ts : List Token) : Except String (Expr × List Token) :=
  match parseComparisonExpression ts with
  | .error e => .error e
  | .ok (left, ts1) => parseAndLoop ts1.length left ts1

def parseOrLoop : Nat → Expr → List Token → Except String (Expr × List Token)
  | 0, left, ts => .ok (left, ts)
  | fuel + 1, left, ts =>
    if (curTok ts).type = .orT then
      let op := (curTok ts).literal
      match parseAndExpression (advT ts) with
      | .error e => .error e
      | .ok (right, ts1) => parseOrLoop fuel (.binary left op right) ts1
    else .ok (left, ts)

def parseOrExpression (ts : List Token) : Except String (Expr × List Token) :=
  match parseAndExpression ts with
  | .error e => .error e
  | .ok (left, ts1) => parseOrLoop ts1.length left ts1

def parseExpression (ts : List Token) : Except String (Expr × List Token) :=
  parseOrExpression ts

/-- The body loop of parseProperties (entered after `\x7b` is consumed). -/
def parsePropsLoop :
    Nat → List (String × PropertyValue) → List Token →
    Except String (List (String × PropertyValue) × List Token)
  | 0, props, ts => .ok (props, ts)
  | fuel + 1, props, ts =>
    if (curTok ts).type = .rbrace then .ok (props, ts)
    else if (curTok ts).type = .identifier then
      let key := (curTok ts).literal
      let ts1 := advT ts
      if (curTok ts1).type = .colon then
        match parseLiteral (advT ts1) with
        | .error e => .error e
        | .ok (valueExpr, ts2) =>
          let value := match valueExpr with
            | .lit v => v
            | _ => .vNull
          let props' := mset props key value
          if (curTok ts2).type = .comma then parsePropsLoop fuel props' (advT ts2)
          else if (curTok ts2).type = .rbrace then parsePropsLoop fuel props' ts2
          else .error "expected , or \x7d in properties"
      else .error "expected : after property name"
    else .error "expected property name"

/-- parseProperties `\x7bkey: value, ...\x7d`. -/
def parseProperties (ts : List Token) :
    Except String (List (String × PropertyValue) × List Token) :=
  if (curTok ts).type = .lbrace then
    match parsePropsLoop ts.length [] (advT ts) with
    | .error e => .error e
    | .ok (props, ts1) =>
      if (curTok ts1).type = .rbrace then .ok (props, advT ts1)
      else .error "expected \x7d"
  else .error "expected \x7b"

/-- parseNodePattern `(a:Label)` or `(a:Label \x7bprop: value\x7d)`. -/
def parseNodePattern (ts : List Token) : Except String (NodePattern × List Token) :=
  if (curTok ts).type = .lparen then
    let ts1 := advT ts
    let vr := if (curTok ts1).type = .identifier then ((curTok ts1).literal, advT ts1) else ("", ts1)
    match
      (if (curTok vr.2).type = .colon then
        (if (curTok (advT vr.2)).type = .identifier then
          .ok (((curTok (advT vr.2)).literal : String), advT (advT vr.2))
        else .error "expected label after :")
      else .ok ("", vr.2) : Except String (String × List Token)) with
    | .error e => .error e
    | .ok (label, ts2) =>
      match
        (if (curTok ts2).type = .lbrace then parseProperties ts2
        else .ok ([], ts2) : Except String (List (String × PropertyValue) × List Token)) with
      | .error e => .error e
      | .ok (props, ts3) =>
        if (curTok ts3).type = .rparen then
          .ok ({ varName := vr.1, label := label, properties := props }, advT ts3)
        else .error "expected ) to close node pattern"
  else .error "expected ( for node pattern"

/-- parseEdgePattern `-[]->` or `<-[:TYPE]-` or `-[]-`: the direction is
seeded from the leading token (In after `<-`, the zero value Out after
`-`), then adjusted by the trailing token; when nothing trails, only the
zero value is rewritten to Both. -/
def parseEdgePattern (ts : List Token) : Except String (EdgePattern × List Token) :=
  match
    (if (curTok ts).type = .leftArrow then .ok (Direction.inn, advT ts)
    else if (curTok ts).type = .dash then .ok (Direction.out, advT ts)
    else .error "expected - or <- to start edge pattern" :
      Except String (Direction × List Token)) with
  | .error e => .error e
  | .ok (dir0, ts1) =>
    if (curTok ts1).type = .lbracket then
      let ts2 := advT ts1
      let vr := if (curTok ts2).type = .identifier then ((curTok ts2).literal, advT ts2) else ("", ts2)
      match
        (if (curTok vr.2).type = .colon then
          (if (curTok (advT vr.2)).type = .identifier then
            .ok (((curTok (advT vr.2)).literal : String), advT (advT vr.2))
          else .error "expected edge type after :")
        else .ok ("", vr.2) : Except String (String × List Token)) with
      | .error e => .error e
      | .ok (ty, ts3) =>
        if (curTok ts3).type = .rbracket then
          let ts4 := advT ts3
          if (curTok ts4).type = .arrow then
            .ok ({ varName := vr.1, type := ty,
                   direction := if dir0 = .inn then .both else .out }, advT ts4)
          else if (curTok ts4).type = .dash then
            .ok ({ varName := vr.1, type := ty,
                   direction := if dir0 = .out then .both else dir0 }, advT ts4)
          else
            .ok ({ varName := vr.1, type := ty,
                   direction := if dir0 = .out then .both else dir0 }, ts4)
        else .error "expected ] to close edge pattern"
    else .error "expected [ in edge pattern"

/-- The `for currentTokenIs(TokenDash) || currentTokenIs(TokenLeftArrow)`
loop of parsePattern. -/
def parsePatternLoop : Nat → Pattern → List Token → Except String (Pattern × List Token)
  | 0, pat, ts => .ok (pat, ts)
  | fuel + 1, pat, ts =>
    if (curTok ts).type = .dash || (curTok ts).type = .leftArrow then
      match parseEdgePattern ts with
      | .error e => .error e
      | .ok (edge, ts1) =>
        match parseNodePattern ts1 with
        | .error e => .error e
        | .ok (node, ts2) =>
          parsePatternLoop fuel
            { nodes := pat.nodes ++ [node], edges := pat.edges ++ [edge] } ts2
    else .ok (pat, ts)

/-- parsePattern `(a)-[r:TYPE]->(b)`. -/
def parsePattern (ts : List Token) : Except String (Pattern × List Token) :=
  match parseNodePattern ts with
  | .error e => .error e
  | .ok (node, ts1) => parsePatternLoop ts1.length { nodes := [node], edges := [] } ts1

/-- parseMatchClause (a single pattern, as in the source). -/
def parseMatchClause (ts : List Token) : Except String (MatchClause × List Token) :=
  if (curTok ts).type = .matchT then
    match parsePattern (advT ts) with
    | .error e => .error e
    | .ok (pat, ts1) => .ok ({ patterns := [pat] }, ts1)
  else .error "expected MATCH"

def parseWhereClause (ts : List Token) : Except String (WhereClause × List Token) :=
  if (curTok ts).type = .whereT then
    match parseExpression (advT ts) with
    | .error e => .error e
    | .ok (expr, ts1) => .ok ({ expr := expr }, ts1)
  else .error "expected WHERE"

def parseReturnExpression (ts : List Token) : Except String (Expr × List Token) :=
  parsePrimaryExpression ts

/-- The item loop of parseReturnClause. -/
def parseReturnLoop : Nat → List ReturnItem → List Token →
    Except String (List ReturnItem × List Token)
  | 0, items, ts => .ok (items, ts)
  | fuel + 1, items, ts =>
    match parseReturnExpression ts with
    | .error e => .error e
    | .ok (expr, ts1) =>
      let items' := items ++ [{ expr := expr, aliasName := "" }]
      if (curTok ts1).type = .comma then parseReturnLoop fuel items' (advT ts1)
      else .ok (items', ts1)

def parseReturnClause (ts : List Token) : Except String (ReturnClause × List Token) :=
  if (curTok ts).type = .returnT then
    match parseReturnLoop ts.length [] (advT ts) with
    | .error e => .error e
    | .ok (items, ts1) => .ok ({ items := items, distinct := false }, ts1)
  else .error "expected RETURN"

def parseLimitClause (ts : List Token) : Except String (Int × List Token) :=
  if (curTok ts).type = .limitT then
    let ts1 := advT ts
    if (curTok ts1).type = .number then
      match atoi (curTok ts1).literal with
      | some v => .ok (v, advT ts1)
      | none => .error ("invalid LIMIT value: " ++ (curTok ts1).literal)
    else .error "expected number after LIMIT"
  else .error "expected LIMIT"

/-- Parse: the four optional clauses in order, then the (always vacuous)
accumulated-errors check. -/
def Parse (input : String) : Except String Query :=
  let ts0 := lex input
  match
    (if (curTok ts0).type = .matchT then
      (parseMatchClause ts0).map (fun r => (some r.1, r.2))
    else .ok (none, ts0) : Except String (Option MatchClause × List Token)) with
  | .error e => .error e
  | .ok (m, ts1) =>
    match
      (if (curTok ts1).type = .whereT then
        (parseWhereClause ts1).map (fun r => (some r.1, r.2))
      else .ok (none, ts1) : Except String (Option WhereClause × List Token)) with
    | .error e => .error e
    | .ok (w, ts2) =>
      match
        (if (curTok ts2).type = .returnT then
          (parseReturnClause ts2).map (fun r => (some r.1, r.2))
        else .ok (none, ts2) : Except String (Option ReturnClause × List Token)) with
      | .error e => .error e
      | .ok (r, ts3) =>
        match
          (if (curTok ts3).type = .limitT then
            (parseLimitClause ts3).map (fun p => (some p.1, p.2))
          else .ok (none, ts3) : Except String (Option Int × List Token)) with
        | .error e => .error e
        | .ok (l, _) =>
          .ok { matchClause := m, whereClause := w, returnClause := r, limit := l }

/-! ## Association-map lemmas -/

theorem mlookup_mset_self {κ α : Type} [DecidableEq κ] (m : List (κ × α)) (k : κ) (v : α) :
    mlookup (mset m k v) k = some v := by
  induction m with
  | nil => simp [mset, mlookup]
  | cons p rest ih =>
    by_cases h : p.1 = k
    · simp [mset, mlookup, h]
    · simpa [mset, mlookup, h] using ih

theorem mlookup_mset_ne {κ α : Type} [DecidableEq κ] (m : List (κ × α)) (k k' : κ) (v : α)
    (h : k' ≠ k) : mlookup (mset m k v) k' = mlookup m k' := by
  induction m with
  | nil => simp [mset, mlookup, Ne.symm h]
  | cons p rest ih =>
    by_cases hp : p.1 = k
    · subst hp
      simp [mset, mlookup, Ne.symm h]
    · simp only [mset, if_neg hp, mlookup]
      by_cases hp' : p.1 = k'
      · simp [hp']
      · simp [hp', ih]

theorem mlookup_none_of_forall {κ α : Type} [DecidableEq κ] (m : List (κ × α)) (k : κ)
    (h : ∀ p ∈ m, p.1 ≠ k) : mlookup m k = none := by
  induction m with
  | nil => rfl
  | cons p rest ih =>
    simp only [mlookup, if_neg (h p (by simp))]
    exact ih (fun q hq => h q (by simp [hq]))

theorem mset_of_not_found {κ α : Type} [DecidableEq κ] (m : List (κ × α)) (k : κ) (v : α)
    (h : mlookup m k = none) : mset m k v = m ++ [(k, v)] := by
  induction m with
  | nil => rfl
  | cons p rest ih =>
    by_cases hp : p.1 = k
    · simp [mlookup, hp] at h
    · simp only [mlookup, if_neg hp] at h
      simp [mset, if_neg hp, ih h]

theorem mdelete_of_not_found {κ α : Type} [DecidableEq κ] (m : List (κ × α)) (k : κ)
    (h : mlookup m k = none) : mdelete m k = m := by
  induction m with
  | nil => rfl
  | cons p rest ih =>
    by_cases hp : p.1 = k
    · simp [mlookup, hp] at h
    · simp only [mlookup, if_neg hp] at h
      unfold mdelete at ih ⊢
      simp only [List.filter_cons]
      rw [if_pos (by simpa using hp), ih h]

theorem mdelete_append {κ α : Type} [DecidableEq κ] (m m' : List (κ × α)) (k : κ) :
    mdelete (m ++ m') k = mdelete m k ++ mdelete m' k := by
  simp [mdelete, List.filter_append]

theorem mlookup_mupdate_self {κ α : Type} [DecidableEq κ] (m : List (κ × α)) (k : κ)
    (f : α → α) : mlookup (mupdate m k f) k = (mlookup m k).map f := by
  induction m with
  | nil => rfl
  | cons p rest ih =>
    by_cases hp : p.1 = k
    · simp [mupdate, mlookup, hp]
    · simpa [mupdate, mlookup, hp] using ih

theorem mlookup_mupdate_ne {κ α : Type} [DecidableEq κ] (m : List (κ × α)) (k k' : κ)
    (f : α → α) (h : k' ≠ k) : mlookup (mupdate m k f) k' = mlookup m k' := by
  induction m with
  | nil => rfl
  | cons p rest ih =>
    by_cases hp : p.1 = k
    · subst hp
      simp [mupdate, mlookup, Ne.symm h]
    · simp only [mupdate, if_neg hp, mlookup]
      by_cases hp' : p.1 = k'
      · simp [hp']
      · simp [hp', ih]

/-! ## Field-preservation lemmas for installed properties -/

theorem installNodeProps_id (n : Node) (ps : Properties) :
    (installNodeProps n ps).id = n.id := by
  induction ps generalizing n with
  | nil => rfl
  | cons kv rest ih => simpa [installNodeProps, Node.SetProperty] using ih _

theorem installNodeProps_label (n : Node) (ps : Properties) :
    (installNodeProps n ps).label = n.label := by
  induction ps generalizing n with
  | nil => rfl
  | cons kv rest ih => simpa [installNodeProps, Node.SetProperty] using ih _

theorem installNodeProps_outEdges (n : Node) (ps : Properties) :
    (installNodeProps n ps).outEdges = n.outEdges := by
  induction ps generalizing n with
  | nil => rfl
  | cons kv rest ih => simpa [installNodeProps, Node.SetProperty] using ih _

theorem installNodeProps_inEdges (n : Node) (ps : Properties) :
    (installNodeProps n ps).inEdges = n.inEdges := by
  induction ps generalizing n with
  | nil => rfl
  | cons kv rest ih => simpa [installNodeProps, Node.SetProperty] using ih _

theorem installEdgeProps_id (e : Edge) (ps : Properties) :
    (installEdgeProps e ps).id = e.id := by
  induction ps generalizing e with
  | nil => rfl
  | cons kv rest ih => simpa [installEdgeProps, Edge.SetProperty] using ih _

theorem installEdgeProps_source (e : Edge) (ps : Properties) :
    (installEdgeProps e ps).source = e.source := by
  induction ps generalizing e with
  | nil => rfl
  | cons kv rest ih => simpa [installEdgeProps, Edge.SetProperty] using ih _

theorem installEdgeProps_target (e : Edge) (ps : Properties) :
    (installEdgeProps e ps).target = e.target := by
  induction ps generalizing e with
  | nil => rfl
  | cons kv rest ih => simpa [installEdgeProps, Edge.SetProperty] using ih _

theorem installEdgeProps_label (e : Edge) (ps : Properties) :
    (installEdgeProps e ps).label = e.label := by
  induction ps generalizing e with
  | nil => rfl
  | cons kv rest ih => simpa [installEdgeProps, Edge.SetProperty] using ih _

/-! ## WAL truncation lemmas -/

theorem entriesToKeep_eq_filter (es : List LogEntry) (i : Nat) :
    entriesToKeep es i = es.filter (fun e => i ≤ e.index) := by
  induction es with
  | nil => rfl
  | cons e rest ih =>
    by_cases h : i ≤ e.index
    · simp [entriesToKeep, List.filter_cons, h, ih]
    · simp [entriesToKeep, List.filter_cons, h, ih]

/-- C2: a successful `Truncate(I)` leaves exactly the entries with index
`≥ I`, in their original order; in particular every retained entry — hence
the first one after a snapshot at index I — has index `≥ I`. Stated for
WALs whose indexes are contiguous (`first, first+1, …`), as produced by
Append. -/
theorem truncate_keeps_exactly_ge (w : WAL) (first keepFromIndex : Nat)
    (hcontig : w.entries.map LogEntry.index = List.range' first w.entries.length) :
    (w.Truncate keepFromIndex).entries = w.entries.filter (fun e => keepFromIndex ≤ e.index) ∧
    (∀ e ∈ (w.Truncate keepFromIndex).entries, keepFromIndex ≤ e.index) ∧
    (∀ e, (w.Truncate keepFromIndex).entries.head? = some e → keepFromIndex ≤ e.index) := by
  refine ⟨entriesToKeep_eq_filter w.entries keepFromIndex, ?_, ?_⟩
  · intro e he
    rw [WAL.Truncate] at he
    simp only [entriesToKeep_eq_filter, List.mem_filter, decide_eq_true_eq] at he
    exact he.2
  · intro e he
    rw [WAL.Truncate] at he
    simp only [entriesToKeep_eq_filter] at he
    have : e ∈ (w.entries.filter (fun e => keepFromIndex ≤ e.index)) :=
      List.mem_of_mem_head? he
    simp only [List.mem_filter, decide_eq_true_eq] at this
    exact this.2

/-- Closed witness for `truncate_keeps_exactly_ge` at a concrete WAL. -/
theorem truncate_keeps_exactly_ge_witness :
    (({ entries := [⟨1, .deleteNode 7⟩, ⟨2, .deleteNode 8⟩, ⟨3, .deleteNode 9⟩],
        nextIndex := 4 } : WAL).Truncate 2).entries =
      [⟨2, .deleteNode 8⟩, ⟨3, .deleteNode 9⟩] := by
  have h := truncate_keeps_exactly_ge
    { entries := [⟨1, .deleteNode 7⟩, ⟨2, .deleteNode 8⟩, ⟨3, .deleteNode 9⟩], nextIndex := 4 }
    1 2 (by decide)
  rw [h.1]
  decide

/-- C9: Truncate never touches `nextIndex`: GetCurrentIndex is unchanged
and the next Append still assigns the original next index. -/
theorem truncate_preserves_current_index (w : WAL) (keepFromIndex : Nat) (op : WalOp) :
    (w.Truncate keepFromIndex).GetCurrentIndex = w.GetCurrentIndex ∧
    ((w.Truncate keepFromIndex).Append op).1 = (w.Append op).1 ∧
    ((w.Truncate keepFromIndex).Append op).1 = w.nextIndex := by
  exact ⟨rfl, rfl, rfl⟩

/-- C10: self-loops: AddEdge(n, n) succeeds on an existing node and the new
edge id lands in both adjacency lists of n, with source = target = n. -/
theorem addedge_self_loop (g : Graph) (n : Nat) (label : String) (ps : Properties)
    (node0 : Node) (h : g.GetNode n = some node0) :
    ∃ edge g', g.AddEdge n n label ps = some (edge, g') ∧
      edge.source = n ∧ edge.target = n ∧
      ∃ node', g'.GetNode n = some node' ∧
        edge.id ∈ node'.outEdges ∧ edge.id ∈ node'.inEdges := by
  refine ⟨installEdgeProps (NewEdge g.nextEdgeID n n label) ps,
    { g with
      edges := mset g.edges g.nextEdgeID (installEdgeProps (NewEdge g.nextEdgeID n n label) ps),
      nextEdgeID := g.nextEdgeID + 1,
      nodes := mupdate (mupdate g.nodes n (fun nd => nd.AddOutEdge g.nextEdgeID)) n
        (fun nd => nd.AddInEdge g.nextEdgeID) }, ?_, ?_, ?_, ?_⟩
  · simp only [Graph.AddEdge, h]
  · exact installEdgeProps_source _ _
  · exact installEdgeProps_target _ _
  · refine ⟨(node0.AddOutEdge g.nextEdgeID).AddInEdge g.nextEdgeID, ?_, ?_, ?_⟩
    · show mlookup (mupdate (mupdate _ n _) n _) n = _
      rw [mlookup_mupdate_self, mlookup_mupdate_self]
      rw [Graph.GetNode] at h
      rw [h]
      rfl
    · rw [installEdgeProps_id]
      simp [Node.AddOutEdge, Node.AddInEdge, NewEdge]
    · rw [installEdgeProps_id]
      simp [Node.AddInEdge, NewEdge]

/-- Closed witness for `addedge_self_loop`. -/
theorem addedge_self_loop_witness :
    ∃ edge g', (NewGraph.AddNode "N" []).2.AddEdge 1 1 "L" [] = some (edge, g') ∧
      edge.source = 1 ∧ edge.target = 1 ∧
      ∃ node', g'.GetNode 1 = some node' ∧
        edge.id ∈ node'.outEdges ∧ edge.id ∈ node'.inEdges :=
  addedge_self_loop (NewGraph.AddNode "N" []).2 1 "L" [] (NewNode 1 "N") (by decide)

/-! ## Sign lemmas for compareNumbers -/

theorem compareNumbers_neg_iff (a b : PropertyValue) :
    compareNumbers a b < 0 ↔ toFloat a < toFloat b := by
  unfold compareNumbers
  split_ifs with h1 h2 <;> simp [h1]

theorem compareNumbers_pos_iff (a b : PropertyValue) :
    0 < compareNumbers a b ↔ toFloat b < toFloat a := by
  unfold compareNumbers
  split_ifs with h1 h2
  · simp [asymm h1]
  · simp [h2]
  · simp [h2]

theorem compareNumbers_nonneg_iff (a b : PropertyValue) :
    0 ≤ compareNumbers a b ↔ toFloat b ≤ toFloat a := by
  unfold compareNumbers
  split_ifs with h1 h2
  · simp [not_le.mpr h1]
  · simp [le_of_lt h2]
  · simp [not_lt.mp h1]

theorem compareNumbers_nonpos_iff (a b : PropertyValue) :
    compareNumbers a b ≤ 0 ↔ toFloat a ≤ toFloat b := by
  unfold compareNumbers
  split_ifs with h1 h2
  · simp [le_of_lt h1]
  · simp [not_le.mpr h2]
  · simp [not_lt.mp h2]

/-- C7: the ordered comparisons coerce both operands to double — integers
and floats to their numeric value, every other type to 0 — and return the
boolean result of the double comparison; AND/OR return an execution error
whenever an operand is not a boolean. -/
theorem compare_values_ordered_coercion (l r : PropertyValue) :
    compareValues l "<" r = .ok (decide (toFloat l < toFloat r)) ∧
    compareValues l "<=" r = .ok (decide (toFloat l ≤ toFloat r)) ∧
    compareValues l ">" r = .ok (decide (toFloat r < toFloat l)) ∧
    compareValues l ">=" r = .ok (decide (toFloat r ≤ toFloat l)) ∧
    (∀ i, toFloat (.vInt i) = (i : Rat)) ∧ (∀ i, toFloat (.vI64 i) = (i : Rat)) ∧
    (∀ q, toFloat (.vF64 q) = q) ∧ (∀ q, toFloat (.vF32 q) = q) ∧
    (∀ s, toFloat (.vStr s) = 0) ∧ (∀ b, toFloat (.vBool b) = 0) ∧ toFloat .vNull = 0 ∧
    ((l.isBool = false ∨ r.isBool = false) →
      (∃ e, compareValues l "AND" r = .error e) ∧
      (∃ e, compareValues l "OR" r = .error e)) := by
  refine ⟨?_, ?_, ?_, ?_, fun _ => rfl, fun _ => rfl, fun _ => rfl, fun _ => rfl,
    fun _ => rfl, fun _ => rfl, rfl, ?_⟩
  · show Except.ok (decide (compareNumbers l r < 0)) = _
    rw [decide_eq_decide.mpr (compareNumbers_neg_iff l r)]
  · show Except.ok (decide (compareNumbers l r ≤ 0)) = _
    rw [decide_eq_decide.mpr (compareNumbers_nonpos_iff l r)]
  · show Except.ok (decide (0 < compareNumbers l r)) = _
    rw [decide_eq_decide.mpr (compareNumbers_pos_iff l r)]
  · show Except.ok (decide (0 ≤ compareNumbers l r)) = _
    rw [decide_eq_decide.mpr (compareNumbers_nonneg_iff l r)]
  · intro hbool
    constructor
    · cases l <;> cases r <;> first
        | exact ⟨_, rfl⟩
        | (rcases hbool with h | h <;> simp [PropertyValue.isBool] at h)
    · cases l <;> cases r <;> first
        | exact ⟨_, rfl⟩
        | (rcases hbool with h | h <;> simp [PropertyValue.isBool] at h)

/-- Closed witness for `compare_values_ordered_coercion`. -/
theorem compare_values_ordered_coercion_witness :
    compareValues (.vInt 3) "<" (.vF64 (7 / 2)) = .ok true ∧
    (∃ e, compareValues (.vStr "x") "AND" (.vBool true) = .error e) := by
  constructor
  · rw [(compare_values_ordered_coercion (.vInt 3) (.vF64 (7 / 2))).1]
    norm_num [toFloat]
  · obtain ⟨-, -, -, -, -, -, -, -, -, -, -, hAND⟩ :=
      compare_values_ordered_coercion (.vStr "x") (.vBool true)
    exact (hAND (Or.inl rfl)).1

/-- C5 (divergence exhibit): the keyword table is probed with the
upper-cased word, so its lower-case `true`/`false` keys can never match:
boolean literals lex as identifiers, while the upper-case keywords do
match case-insensitively. -/
theorem boolean_keywords_lex_as_identifiers :
    lex "true" = [{ type := .identifier, literal := "true" }, { type := .eof, literal := "" }] ∧
    lex "FALSE" = [{ type := .identifier, literal := "FALSE" }, { type := .eof, literal := "" }] ∧
    lookupKeyword "true" = .identifier ∧
    lookupKeyword "false" = .identifier ∧
    lookupKeyword "True" = .identifier ∧
    lookupKeyword "FALSE" = .identifier ∧
    lookupKeyword "MATCH" = .matchT ∧
    lookupKeyword "match" = .matchT ∧
    lookupKeyword "where" = .whereT ∧
    lookupKeyword "ReTuRn" = .returnT := by
  decide

/-! ## C3: AddNode atomicity under WAL append failure -/

/-- C3: when the facade's AddNode hits a failing WAL append, the rollback
deletes the just-added node, the call errors, and the node map (hence
NodeCount) is exactly what it was before the call; when the append
succeeds, the node is returned without error and is retrievable. The
freshness hypothesis (every installed id is below the counter) holds in
every state the engine can reach. -/
theorem addnode_rolls_back_on_append_failure (pg : PGraph) (label : String) (ps : Properties)
    (hw : pg.walEnabled = true)
    (hfresh : ∀ p ∈ pg.graph.nodes, p.1 < pg.graph.nextNodeID) :
    ((pg.AddNode false label ps).2.graph.nodes = pg.graph.nodes ∧
     (pg.AddNode false label ps).2.graph.NodeCount = pg.graph.NodeCount ∧
     ∃ msg, (pg.AddNode false label ps).1 = .error msg) ∧
    ((pg.AddNode true label ps).1 = .ok (pg.graph.AddNode label ps).1 ∧
     (pg.AddNode true label ps).2.graph.GetNode (pg.graph.AddNode label ps).1.id =
       some (pg.graph.AddNode label ps).1) := by
  have hnone : mlookup pg.graph.nodes pg.graph.nextNodeID = none :=
    mlookup_none_of_forall _ _ (fun p hp => Nat.ne_of_lt (hfresh p hp))
  have hid : (installNodeProps (NewNode pg.graph.nextNodeID label) ps).id =
      pg.graph.nextNodeID := installNodeProps_id _ _
  have hout : (installNodeProps (NewNode pg.graph.nextNodeID label) ps).outEdges = [] :=
    installNodeProps_outEdges _ _
  have hin : (installNodeProps (NewNode pg.graph.nextNodeID label) ps).inEdges = [] :=
    installNodeProps_inEdges _ _
  constructor
  · simp only [PGraph.AddNode, hw, if_true, Bool.false_eq_true, if_false, Graph.AddNode]
    have hget : mlookup
        (mset pg.graph.nodes pg.graph.nextNodeID
          (installNodeProps (NewNode pg.graph.nextNodeID label) ps)) pg.graph.nextNodeID =
        some (installNodeProps (NewNode pg.graph.nextNodeID label) ps) :=
      mlookup_mset_self _ _ _
    have hnodes :
        mdelete (mset pg.graph.nodes pg.graph.nextNodeID
          (installNodeProps (NewNode pg.graph.nextNodeID label) ps)) pg.graph.nextNodeID =
        pg.graph.nodes := by
      rw [mset_of_not_found _ _ _ hnone, mdelete_append, mdelete_of_not_found _ _ hnone]
      simp [mdelete]
    refine ⟨?_, ?_, "failed to log node addition", rfl⟩
    · show ((Graph.DeleteNode _ _).getD _).nodes = _
      rw [Graph.DeleteNode]
      simp only [Graph.GetNode, hid, hget, hout, hin, List.foldl_nil, Option.getD_some]
      exact hnodes
    · show ((Graph.DeleteNode _ _).getD _).nodes.length = _
      rw [Graph.DeleteNode]
      simp only [Graph.GetNode, hid, hget, hout, hin, List.foldl_nil, Option.getD_some]
      rw [hnodes]
      rfl
  · constructor
    · simp [PGraph.AddNode, hw]
    · simp only [PGraph.AddNode, hw, if_true, Graph.AddNode, Graph.GetNode]
      rw [hid]
      exact mlookup_mset_self _ _ _

/-- Closed witness for `addnode_rolls_back_on_append_failure`. -/
theorem addnode_rolls_back_on_append_failure_witness :
    (PGraph.new.AddNode false "Person" [("name", .vStr "Alice")]).2.graph.nodes = [] ∧
    (PGraph.new.AddNode true "Person" [("name", .vStr "Alice")]).1 =
      .ok (PGraph.new.graph.AddNode "Person" [("name", .vStr "Alice")]).1 := by
  have h := addnode_rolls_back_on_append_failure PGraph.new "Person"
    [("name", .vStr "Alice")] rfl (by intro p hp; simp [PGraph.new, NewGraph] at hp)
  exact ⟨h.1.1, h.2.1⟩

/-! ## C4: DeleteNode cascade with frame condition -/

theorem mlookup_mdelete {κ α : Type} [DecidableEq κ] (m : List (κ × α)) (k x : κ) :
    mlookup (mdelete m k) x = if x = k then none else mlookup m x := by
  induction m with
  | nil => by_cases hx : x = k <;> simp [mdelete, mlookup, hx]
  | cons p rest ih =>
    by_cases hpk : p.1 = k
    · have hstep : mdelete (p :: rest) k = mdelete rest k := by
        simp [mdelete, List.filter_cons, hpk]
      rw [hstep, ih]
      by_cases hx : x = k
      · simp [hx]
      · have hpx : ¬ p.1 = x := fun h => hx (by rw [← h]; exact hpk)
        simp [mlookup, hpx, hx]
    · have hstep : mdelete (p :: rest) k = p :: mdelete rest k := by
        simp [mdelete, List.filter_cons, hpk]
      rw [hstep]
      by_cases hpx : p.1 = x
      · have hxk : ¬ x = k := fun h => hpk (by rw [hpx, h])
        simp [mlookup, hpx, hxk]
      · simp [mlookup, hpx, ih]

theorem mlookup_some_mem {κ α : Type} [DecidableEq κ] (m : List (κ × α)) (k : κ) (v : α)
    (h : mlookup m k = some v) : (k, v) ∈ m := by
  induction m with
  | nil => simp [mlookup] at h
  | cons p rest ih =>
    obtain ⟨a, b⟩ := p
    by_cases hp : a = k
    · subst hp
      simp only [mlookup, if_pos rfl] at h
      obtain rfl : b = v := Option.some.inj h
      exact List.mem_cons_self _ _
    · simp only [mlookup, if_neg hp] at h
      exact List.mem_cons_of_mem _ (ih h)

/-- The label-and-properties view of a node; the cascade only touches
adjacency lists, so this view survives DeleteEdge. -/
def nodeLP (n : Node) : String × Properties := (n.label, n.properties)

theorem mlookup_mupdate_map_LP (m : List (Nat × Node)) (k : Nat) (f : Node → Node)
    (hf : ∀ a, nodeLP (f a) = nodeLP a) (x : Nat) :
    (mlookup (mupdate m k f) x).map nodeLP = (mlookup m x).map nodeLP := by
  by_cases hx : x = k
  · subst hx
    rw [mlookup_mupdate_self, Option.map_map]
    cases mlookup m x with
    | none => rfl
    | some a => simp [hf]
  · rw [mlookup_mupdate_ne _ _ _ _ hx]

/-- updateNodeIfPresent leaves the edge map alone. -/
theorem updateNodeIfPresent_edges (g : Graph) (k : Nat) (f : Node → Node) :
    (updateNodeIfPresent g k f).edges = g.edges := by
  unfold updateNodeIfPresent
  cases g.GetNode k <;> rfl

/-- updateNodeIfPresent leaves the counters alone. -/
theorem updateNodeIfPresent_counters (g : Graph) (k : Nat) (f : Node → Node) :
    (updateNodeIfPresent g k f).nextNodeID = g.nextNodeID ∧
    (updateNodeIfPresent g k f).nextEdgeID = g.nextEdgeID := by
  unfold updateNodeIfPresent
  cases g.GetNode k <;> exact ⟨rfl, rfl⟩

/-- updateNodeIfPresent with a label-and-properties-preserving mutation
preserves the label-and-properties view of every node. -/
theorem updateNodeIfPresent_nodes_LP (g : Graph) (k : Nat) (f : Node → Node)
    (hf : ∀ a, nodeLP (f a) = nodeLP a) (m : Nat) :
    ((updateNodeIfPresent g k f).GetNode m).map nodeLP = (g.GetNode m).map nodeLP := by
  unfold updateNodeIfPresent
  cases g.GetNode k with
  | none => rfl
  | some _ => exact mlookup_mupdate_map_LP _ _ _ hf _

/-- DeleteEdge (quiet form) preserves every node's label and properties. -/
theorem deleteEdgeQuiet_nodes_LP (g : Graph) (eid : Nat) (m : Nat) :
    ((g.deleteEdgeQuiet eid).GetNode m).map nodeLP = (g.GetNode m).map nodeLP := by
  unfold Graph.deleteEdgeQuiet Graph.DeleteEdge
  cases hget : g.GetEdge eid with
  | none => rfl
  | some edge =>
    simp only [Option.getD_some]
    show ((updateNodeIfPresent (updateNodeIfPresent g edge.source
      (fun n => n.removeOutEdge eid)) edge.target
      (fun n => n.removeInEdge eid)).GetNode m).map nodeLP = _
    rw [updateNodeIfPresent_nodes_LP _ edge.target (fun n => n.removeInEdge eid)
        (fun a => rfl),
      updateNodeIfPresent_nodes_LP _ edge.source (fun n => n.removeOutEdge eid)
        (fun a => rfl)]

/-- The edge map after a quiet DeleteEdge: the deleted key reads as absent,
every other key is untouched. -/
theorem deleteEdgeQuiet_edges_lookup (g : Graph) (eid x : Nat) :
    mlookup (g.deleteEdgeQuiet eid).edges x =
    if x = eid then none else mlookup g.edges x := by
  unfold Graph.deleteEdgeQuiet Graph.DeleteEdge
  cases hget : g.GetEdge eid with
  | none =>
    by_cases hx : x = eid
    · subst hx
      simpa [Graph.GetEdge] using hget
    · simp [hx]
  | some edge =>
    simp only [Option.getD_some]
    show mlookup (mdelete (updateNodeIfPresent (updateNodeIfPresent g edge.source
      (fun n => n.removeOutEdge eid)) edge.target
      (fun n => n.removeInEdge eid)).edges eid) x = _
    rw [updateNodeIfPresent_edges, updateNodeIfPresent_edges, mlookup_mdelete]

theorem fold_dEQ_nodes_LP (L : List Nat) (g : Graph) (m : Nat) :
    ((L.foldl Graph.deleteEdgeQuiet g).GetNode m).map nodeLP = (g.GetNode m).map nodeLP := by
  induction L generalizing g with
  | nil => rfl
  | cons a L ih => rw [List.foldl_cons, ih, deleteEdgeQuiet_nodes_LP]

theorem fold_dEQ_edges_none (L : List Nat) (g : Graph) (x : Nat)
    (h : mlookup g.edges x = none) :
    mlookup (L.foldl Graph.deleteEdgeQuiet g).edges x = none := by
  induction L generalizing g with
  | nil => exact h
  | cons a L ih =>
    rw [List.foldl_cons]
    refine ih _ ?_
    rw [deleteEdgeQuiet_edges_lookup]
    by_cases hx : x = a <;> simp [hx, h]

theorem fold_dEQ_edges_mem (L : List Nat) (g : Graph) (x : Nat) (h : x ∈ L) :
    mlookup (L.foldl Graph.deleteEdgeQuiet g).edges x = none := by
  induction L generalizing g with
  | nil => simp at h
  | cons a L ih =>
    rw [List.foldl_cons]
    by_cases hx : x = a
    · subst hx
      exact fold_dEQ_edges_none _ _ _ (by rw [deleteEdgeQuiet_edges_lookup]; simp)
    · exact ih _ (by simpa [hx] using h)

theorem fold_dEQ_edges_not_mem (L : List Nat) (g : Graph) (x : Nat) (h : x ∉ L) :
    mlookup (L.foldl Graph.deleteEdgeQuiet g).edges x = mlookup g.edges x := by
  induction L generalizing g with
  | nil => rfl
  | cons a L ih =>
    rw [List.foldl_cons, ih _ (fun hm => h (List.mem_cons_of_mem _ hm)),
      deleteEdgeQuiet_edges_lookup,
      if_neg (fun hx : x = a => h (by rw [hx]; exact List.mem_cons_self a L))]

theorem fold_dEQ_nodes_keys (L : List Nat) (g : Graph) (m : Nat) :
    (mlookup (L.foldl Graph.deleteEdgeQuiet g).nodes m).isSome =
      (mlookup g.nodes m).isSome := by
  have h := fold_dEQ_nodes_LP L g m
  rw [Graph.GetNode, Graph.GetNode] at h
  cases h1 : mlookup (L.foldl Graph.deleteEdgeQuiet g).nodes m <;>
    cases h2 : mlookup g.nodes m <;> simp_all

/-- Adjacency soundness: every edge id listed in a node's adjacency belongs
to an edge incident to that node on the matching side (spec §3 invariant 1). -/
def AdjacencySound (g : Graph) : Prop :=
  ∀ nid nd, g.GetNode nid = some nd →
    (∀ eid ∈ nd.outEdges, ∀ e, g.GetEdge eid = some e → e.source = nid) ∧
    (∀ eid ∈ nd.inEdges, ∀ e, g.GetEdge eid = some e → e.target = nid)

/-- Adjacency completeness: every stored edge is listed in both endpoints'
adjacency lists (spec §3 invariant 1, other direction). -/
def AdjacencyComplete (g : Graph) : Prop :=
  ∀ eid e, g.GetEdge eid = some e →
    (∀ nd, g.GetNode e.source = some nd → eid ∈ nd.outEdges) ∧
    (∀ nd, g.GetNode e.target = some nd → eid ∈ nd.inEdges)

/-- C4: deleting an existing node succeeds; afterwards the node and every
edge incident to it read as NotFound, every other node keeps its label and
properties, and every non-incident edge is retrievable completely
unchanged. Stated under the adjacency invariants that hold in every state
the engine can reach. -/
theorem delete_node_cascade_frame (g : Graph) (n : Nat) (node : Node)
    (hnode : g.GetNode n = some node)
    (hsound : AdjacencySound g) (hcomplete : AdjacencyComplete g) :
    ∃ g', g.DeleteNode n = some g' ∧
      g'.GetNode n = none ∧
      (∀ eid e, g.GetEdge eid = some e → (e.source = n ∨ e.target = n) →
        g'.GetEdge eid = none) ∧
      (∀ m, m ≠ n → (g'.GetNode m).map nodeLP = (g.GetNode m).map nodeLP) ∧
      (∀ eid e, g.GetEdge eid = some e → e.source ≠ n → e.target ≠ n →
        g'.GetEdge eid = some e) := by
  have hdel : g.DeleteNode n = some
      { (node.inEdges.foldl Graph.deleteEdgeQuiet
          (node.outEdges.foldl Graph.deleteEdgeQuiet g)) with
        nodes := mdelete (node.inEdges.foldl Graph.deleteEdgeQuiet
          (node.outEdges.foldl Graph.deleteEdgeQuiet g)).nodes n } := by
    unfold Graph.DeleteNode
    rw [hnode]
  refine ⟨_, hdel, ?_, ?_, ?_, ?_⟩
  · show mlookup (mdelete (node.inEdges.foldl Graph.deleteEdgeQuiet
      (node.outEdges.foldl Graph.deleteEdgeQuiet g)).nodes n) n = none
    rw [mlookup_mdelete]
    simp
  · intro eid e hget hinc
    show mlookup (node.inEdges.foldl Graph.deleteEdgeQuiet
      (node.outEdges.foldl Graph.deleteEdgeQuiet g)).edges eid = none
    rcases hinc with hsrc | htgt
    · have hmem : eid ∈ node.outEdges := (hcomplete eid e hget).1 node (hsrc ▸ hnode)
      exact fold_dEQ_edges_none _ _ _ (fold_dEQ_edges_mem _ _ _ hmem)
    · have hmem : eid ∈ node.inEdges := (hcomplete eid e hget).2 node (htgt ▸ hnode)
      exact fold_dEQ_edges_mem _ _ _ hmem
  · intro m hm
    have hLP : ((node.inEdges.foldl Graph.deleteEdgeQuiet
        (node.outEdges.foldl Graph.deleteEdgeQuiet g)).GetNode m).map nodeLP =
        (g.GetNode m).map nodeLP := by
      rw [fold_dEQ_nodes_LP, fold_dEQ_nodes_LP]
    show (mlookup (mdelete (node.inEdges.foldl Graph.deleteEdgeQuiet
      (node.outEdges.foldl Graph.deleteEdgeQuiet g)).nodes n) m).map nodeLP = _
    rw [mlookup_mdelete, if_neg hm]
    exact hLP
  · intro eid e hget hs ht
    have hout : eid ∉ node.outEdges := by
      intro hmem
      exact hs ((hsound n node hnode).1 eid hmem e hget)
    have hin : eid ∉ node.inEdges := by
      intro hmem
      exact ht ((hsound n node hnode).2 eid hmem e hget)
    show mlookup (node.inEdges.foldl Graph.deleteEdgeQuiet
      (node.outEdges.foldl Graph.deleteEdgeQuiet g)).edges eid = some e
    rw [fold_dEQ_edges_not_mem _ _ _ hin, fold_dEQ_edges_not_mem _ _ _ hout]
    exact hget

/-- Closed witness for `delete_node_cascade_frame` on a one-node graph with
a self-loop. -/
theorem delete_node_cascade_frame_witness :
    ∃ g', Graph.DeleteNode
        { nodes := [(1, { id := 1, label := "A", properties := [("k", .vInt 1)],
                          outEdges := [1], inEdges := [1] })],
          edges := [(1, { id := 1, source := 1, target := 1, label := "E",
                          properties := [] })],
          nextNodeID := 2, nextEdgeID := 2 } 1 = some g' ∧
      g'.GetNode 1 = none ∧
      (∀ eid e, Graph.GetEdge
          { nodes := [(1, { id := 1, label := "A", properties := [("k", .vInt 1)],
                            outEdges := [1], inEdges := [1] })],
            edges := [(1, { id := 1, source := 1, target := 1, label := "E",
                            properties := [] })],
            nextNodeID := 2, nextEdgeID := 2 } eid = some e →
        (e.source = 1 ∨ e.target = 1) → g'.GetEdge eid = none) ∧
      (∀ m, m ≠ 1 → (g'.GetNode m).map nodeLP =
        (Graph.GetNode
          { nodes := [(1, { id := 1, label := "A", properties := [("k", .vInt 1)],
                            outEdges := [1], inEdges := [1] })],
            edges := [(1, { id := 1, source := 1, target := 1, label := "E",
                            properties := [] })],
            nextNodeID := 2, nextEdgeID := 2 } m).map nodeLP) ∧
      (∀ eid e, Graph.GetEdge
          { nodes := [(1, { id := 1, label := "A", properties := [("k", .vInt 1)],
                            outEdges := [1], inEdges := [1] })],
            edges := [(1, { id := 1, source := 1, target := 1, label := "E",
                            properties := [] })],
            nextNodeID := 2, nextEdgeID := 2 } eid = some e →
        e.source ≠ 1 → e.target ≠ 1 → g'.GetEdge eid = some e) := by
  refine delete_node_cascade_frame _ 1
    { id := 1, label := "A", properties := [("k", .vInt 1)],
      outEdges := [1], inEdges := [1] } rfl ?_ ?_
  · intro nid nd h
    simp only [Graph.GetNode, mlookup] at h
    split_ifs at h with h1
    · subst h1
      obtain rfl := Option.some.inj h
      constructor <;> intro eid hmem e he <;> simp only [List.mem_singleton] at hmem <;>
        subst hmem <;> simp only [Graph.GetEdge, mlookup, if_pos rfl] at he <;>
        obtain rfl := Option.some.inj he <;> rfl
  · intro eid e he
    simp only [Graph.GetEdge, mlookup] at he
    split_ifs at he with h1
    · subst h1
      obtain rfl := Option.some.inj he
      constructor <;> intro nd hn <;>
        simp only [Graph.GetNode, mlookup, if_pos rfl] at hn <;>
        obtain rfl := Option.some.inj hn <;> simp

/-! ## C6: a leading `<-` with no closing dash -/

/-- C6 (amended): after a leading `<-`, the direction is already In (not
the zero value), so the trailing-token analysis raises no error when
neither `->` nor `-` follows the bracketed part: the edge pattern is
accepted with direction In. -/
theorem edge_pattern_lone_left_arrow_accepted (v : String) (rest : List Token)
    (harrow : (curTok rest).type ≠ .arrow) (hdash : (curTok rest).type ≠ .dash) :
    parseEdgePattern ({ type := .leftArrow, literal := "<-" } ::
      { type := .lbracket, literal := "[" } ::
      { type := .identifier, literal := v } ::
      { type := .rbracket, literal := "]" } :: rest) =
    .ok ({ varName := v, type := "", direction := .inn }, rest) := by
  simp only [curTok, List.headD_eq_head?] at harrow hdash
  simp [parseEdgePattern, curTok, advT, List.headD_eq_head?, harrow, hdash]

/-- Closed witness for `edge_pattern_lone_left_arrow_accepted`. -/
theorem edge_pattern_lone_left_arrow_accepted_witness :
    parseEdgePattern [{ type := .leftArrow, literal := "<-" },
      { type := .lbracket, literal := "[" },
      { type := .identifier, literal := "r" },
      { type := .rbracket, literal := "]" },
      { type := .lparen, literal := "(" }] =
    .ok ({ varName := "r", type := "", direction := .inn },
      [{ type := .lparen, literal := "(" }]) :=
  edge_pattern_lone_left_arrow_accepted "r" [{ type := .lparen, literal := "(" }]
    (by decide) (by decide)

/-- C6 (counterexample to the claim as stated): the full query
`MATCH (a)<-[r](b) RETURN a`, whose edge pattern starts with `<-` and has
no closing dash, parses successfully (direction In) instead of failing. -/
theorem lone_left_arrow_parses_successfully :
    Parse "MATCH (a)<-[r](b) RETURN a" =
    .ok { matchClause := some { patterns := [{
            nodes := [{ varName := "a", label := "", properties := [] },
                      { varName := "b", label := "", properties := [] }],
            edges := [{ varName := "r", type := "", direction := .inn }] }] },
          whereClause := none,
          returnClause := some { items := [{ expr := .ident "a", aliasName := "" }],
                                 distinct := false },
          limit := none } := by
  rfl

/-! ## C1: persistence round-trip

The plan: show by induction over the mutation sequence that replaying the
accumulated WAL from scratch rebuilds exactly the JSON image of the live
graph (`jsonifyGraph`), i.e. the same maps and counters with every
property value put through the JSON write/read cycle. -/

theorem mlookup_mapVals {κ α β : Type} [DecidableEq κ] (f : α → β) (m : List (κ × α)) (k : κ) :
    mlookup (m.map (fun kv => (kv.1, f kv.2))) k = (mlookup m k).map f := by
  induction m with
  | nil => rfl
  | cons p rest ih =>
    by_cases hp : p.1 = k
    · simp [mlookup, hp]
    · simpa [mlookup, hp] using ih

theorem mset_mapVals {κ α β : Type} [DecidableEq κ] (f : α → β) (m : List (κ × α))
    (k : κ) (v : α) :
    mset (m.map (fun kv => (kv.1, f kv.2))) k (f v) =
    (mset m k v).map (fun kv => (kv.1, f kv.2)) := by
  induction m with
  | nil => rfl
  | cons p rest ih =>
    by_cases hp : p.1 = k
    · simp [mset, hp]
    · simp [mset, hp, ih]

theorem mupdate_mapVals {κ α β : Type} [DecidableEq κ] (f : α → β) (u : α → α)
    (u' : β → β) (hcomm : ∀ a, f (u a) = u' (f a)) (m : List (κ × α)) (k : κ) :
    mupdate (m.map (fun kv => (kv.1, f kv.2))) k u' =
    (mupdate m k u).map (fun kv => (kv.1, f kv.2)) := by
  induction m with
  | nil => rfl
  | cons p rest ih =>
    by_cases hp : p.1 = k
    · simp [mupdate, hp, hcomm]
    · simp [mupdate, hp, ih]

theorem mdelete_mapVals {κ α β : Type} [DecidableEq κ] (f : α → β) (m : List (κ × α))
    (k : κ) :
    mdelete (m.map (fun kv => (kv.1, f kv.2))) k =
    (mdelete m k).map (fun kv => (kv.1, f kv.2)) := by
  induction m with
  | nil => rfl
  | cons p rest ih =>
    by_cases hp : p.1 = k
    · simp [mdelete, List.filter_cons, hp] at ih ⊢
      exact ih
    · simp [mdelete, List.filter_cons, hp] at ih ⊢
      exact ih

/-! JSON commutation for node/edge construction. -/

theorem jsonProps_mset (p : Properties) (k : String) (v : PropertyValue) :
    jsonProps (mset p k v) = mset (jsonProps p) k (jsonVal v) :=
  (mset_mapVals jsonVal p k v).symm

theorem jsonNode_SetProperty (n : Node) (k : String) (v : PropertyValue) :
    jsonNode (n.SetProperty k v) = (jsonNode n).SetProperty k (jsonVal v) := by
  simp [jsonNode, Node.SetProperty, jsonProps_mset]

theorem jsonEdge_SetProperty (e : Edge) (k : String) (v : PropertyValue) :
    jsonEdge (e.SetProperty k v) = (jsonEdge e).SetProperty k (jsonVal v) := by
  simp [jsonEdge, Edge.SetProperty, jsonProps_mset]

theorem jsonNode_installNodeProps (n : Node) (ps : Properties) :
    jsonNode (installNodeProps n ps) = installNodeProps (jsonNode n) (jsonProps ps) := by
  induction ps generalizing n with
  | nil => rfl
  | cons kv rest ih =>
    show jsonNode (installNodeProps (n.SetProperty kv.1 kv.2) rest) = _
    rw [ih, jsonNode_SetProperty]
    rfl

theorem jsonEdge_installEdgeProps (e : Edge) (ps : Properties) :
    jsonEdge (installEdgeProps e ps) = installEdgeProps (jsonEdge e) (jsonProps ps) := by
  induction ps generalizing e with
  | nil => rfl
  | cons kv rest ih =>
    show jsonEdge (installEdgeProps (e.SetProperty kv.1 kv.2) rest) = _
    rw [ih, jsonEdge_SetProperty]
    rfl

/-! JSON commutation for graph observations and mutations. -/

theorem jsonifyGraph_GetNode (g : Graph) (id : Nat) :
    (jsonifyGraph g).GetNode id = (g.GetNode id).map jsonNode :=
  mlookup_mapVals jsonNode g.nodes id

theorem jsonifyGraph_GetEdge (g : Graph) (id : Nat) :
    (jsonifyGraph g).GetEdge id = (g.GetEdge id).map jsonEdge :=
  mlookup_mapVals jsonEdge g.edges id

theorem updateNodeIfPresent_jsonify (g : Graph) (k : Nat) (u u' : Node → Node)
    (hcomm : ∀ a, jsonNode (u a) = u' (jsonNode a)) :
    updateNodeIfPresent (jsonifyGraph g) k u' =
    jsonifyGraph (updateNodeIfPresent g k u) := by
  unfold updateNodeIfPresent
  rw [jsonifyGraph_GetNode]
  cases g.GetNode k with
  | none => rfl
  | some nd =>
    simp only [Option.map_some']
    show ({ jsonifyGraph g with
      nodes := mupdate (jsonifyGraph g).nodes k u' } : Graph) = _
    simp only [jsonifyGraph]
    rw [mupdate_mapVals jsonNode u u' hcomm g.nodes k]

theorem DeleteEdge_jsonify (g : Graph) (eid : Nat) :
    (jsonifyGraph g).DeleteEdge eid = (g.DeleteEdge eid).map jsonifyGraph := by
  unfold Graph.DeleteEdge
  rw [jsonifyGraph_GetEdge]
  cases hget : g.GetEdge eid with
  | none => rfl
  | some edge =>
    simp only [Option.map_some',
      show (jsonEdge edge).source = edge.source from rfl,
      show (jsonEdge edge).target = edge.target from rfl]
    rw [updateNodeIfPresent_jsonify g edge.source
      (fun n => n.removeOutEdge eid) (fun n => n.removeOutEdge eid) (fun a => rfl)]
    rw [updateNodeIfPresent_jsonify _ edge.target
      (fun n => n.removeInEdge eid) (fun n => n.removeInEdge eid) (fun a => rfl)]
    simp only [Option.some.injEq]
    show ({ jsonifyGraph _ with edges := mdelete (jsonifyGraph _).edges eid } : Graph) = _
    simp only [jsonifyGraph]
    rw [mdelete_mapVals]

theorem deleteEdgeQuiet_jsonify (g : Graph) (eid : Nat) :
    (jsonifyGraph g).deleteEdgeQuiet eid = jsonifyGraph (g.deleteEdgeQuiet eid) := by
  unfold Graph.deleteEdgeQuiet
  rw [DeleteEdge_jsonify]
  cases g.DeleteEdge eid <;> rfl

theorem fold_dEQ_jsonify (L : List Nat) (g : Graph) :
    L.foldl Graph.deleteEdgeQuiet (jsonifyGraph g) =
    jsonifyGraph (L.foldl Graph.deleteEdgeQuiet g) := by
  induction L generalizing g with
  | nil => rfl
  | cons a L ih => rw [List.foldl_cons, List.foldl_cons, deleteEdgeQuiet_jsonify, ih]

theorem DeleteNode_jsonify (g : Graph) (id : Nat) :
    (jsonifyGraph g).DeleteNode id = (g.DeleteNode id).map jsonifyGraph := by
  unfold Graph.DeleteNode
  rw [jsonifyGraph_GetNode]
  cases hget : g.GetNode id with
  | none => rfl
  | some node =>
    simp only [Option.map_some',
      show (jsonNode node).outEdges = node.outEdges from rfl,
      show (jsonNode node).inEdges = node.inEdges from rfl]
    rw [fold_dEQ_jsonify, fold_dEQ_jsonify]
    simp only [Option.some.injEq]
    show ({ jsonifyGraph _ with nodes := mdelete (jsonifyGraph _).nodes id } : Graph) = _
    simp only [jsonifyGraph]
    rw [mdelete_mapVals]

/-! Replay of a single decoded WAL entry mirrors the live operation on the
JSON image of the graph. -/

theorem applyWALEntry_addNode_json (g : Graph) (label : String) (ps : Properties)
    (idx : Nat) :
    applyWALEntry (jsonifyGraph g) (jsonEntry ⟨idx, .addNode g.nextNodeID label ps⟩) =
    jsonifyGraph (g.AddNode label ps).2 := by
  have hnode : installNodeProps (NewNode g.nextNodeID label) (jsonProps ps) =
      jsonNode (installNodeProps (NewNode g.nextNodeID label) ps) := by
    rw [jsonNode_installNodeProps]
    rfl
  simp only [applyWALEntry, jsonEntry, Graph.AddNode]
  rw [if_pos (show (jsonifyGraph g).nextNodeID ≤ g.nextNodeID from Nat.le_refl _)]
  simp only [jsonifyGraph, hnode]
  rw [mset_mapVals]

theorem updateNodeIfPresent_of_present (g : Graph) (k : Nat) (f : Node → Node)
    (h : (g.GetNode k).isSome) :
    updateNodeIfPresent g k f = { g with nodes := mupdate g.nodes k f } := by
  unfold updateNodeIfPresent
  cases hx : g.GetNode k
  · rw [hx] at h
    cases h
  · rfl

theorem applyWALEntry_addEdge_json (g : Graph) (s t : Nat) (label : String)
    (ps : Properties) (idx : Nat) (edge : Edge) (g' : Graph)
    (h : g.AddEdge s t label ps = some (edge, g')) :
    applyWALEntry (jsonifyGraph g) (jsonEntry ⟨idx, .addEdge edge.id s t label ps⟩) =
    jsonifyGraph g' := by
  unfold Graph.AddEdge at h
  cases hs : g.GetNode s <;> rw [hs] at h
  · cases h
  cases ht : g.GetNode t <;> rw [ht] at h
  · cases h
  have h2 := Option.some.inj h
  rw [Prod.ext_iff] at h2
  obtain ⟨he, hg⟩ := h2
  subst he
  subst hg
  have hid : (installEdgeProps (NewEdge g.nextEdgeID s t label) ps).id = g.nextEdgeID :=
    installEdgeProps_id _ _
  simp only [applyWALEntry, jsonEntry, hid]
  have hedge : installEdgeProps (NewEdge g.nextEdgeID s t label) (jsonProps ps) =
      jsonEdge (installEdgeProps (NewEdge g.nextEdgeID s t label) ps) := by
    rw [jsonEdge_installEdgeProps]
    rfl
  rw [if_pos (show (jsonifyGraph g).nextEdgeID ≤ g.nextEdgeID from Nat.le_refl _)]
  have hbase :
      ({ jsonifyGraph g with
          edges := mset (jsonifyGraph g).edges g.nextEdgeID
            (installEdgeProps (NewEdge g.nextEdgeID s t label) (jsonProps ps)),
          nextEdgeID := g.nextEdgeID + 1 } : Graph) =
      jsonifyGraph { g with
          edges := mset g.edges g.nextEdgeID
            (installEdgeProps (NewEdge g.nextEdgeID s t label) ps),
          nextEdgeID := g.nextEdgeID + 1 } := by
    simp only [jsonifyGraph, hedge]
    rw [mset_mapVals]
  rw [hbase,
    updateNodeIfPresent_jsonify _ s (fun n => n.AddOutEdge g.nextEdgeID)
      (fun n => n.AddOutEdge g.nextEdgeID) (fun a => rfl),
    updateNodeIfPresent_jsonify _ t (fun n => n.AddInEdge g.nextEdgeID)
      (fun n => n.AddInEdge g.nextEdgeID) (fun a => rfl)]
  rw [updateNodeIfPresent_of_present _ s _
    (by
      show (mlookup g.nodes s).isSome
      rw [show mlookup g.nodes s = g.GetNode s from rfl, hs]
      rfl)]
  rw [updateNodeIfPresent_of_present _ t _
    (by
      show (mlookup (mupdate g.nodes s (fun n => n.AddOutEdge g.nextEdgeID)) t).isSome
      by_cases hts : t = s
      · subst hts
        rw [mlookup_mupdate_self, show mlookup g.nodes t = g.GetNode t from rfl, ht]
        rfl
      · rw [mlookup_mupdate_ne _ _ _ _ hts,
          show mlookup g.nodes t = g.GetNode t from rfl, ht]
        rfl)]

theorem applyWALEntry_deleteNode_json (g : Graph) (id idx : Nat) :
    applyWALEntry (jsonifyGraph g) (jsonEntry ⟨idx, .deleteNode id⟩) =
    jsonifyGraph ((g.DeleteNode id).getD g) := by
  simp only [applyWALEntry, jsonEntry]
  rw [DeleteNode_jsonify]
  cases g.DeleteNode id <;> rfl

theorem applyWALEntry_deleteEdge_json (g : Graph) (id idx : Nat) :
    applyWALEntry (jsonifyGraph g) (jsonEntry ⟨idx, .deleteEdge id⟩) =
    jsonifyGraph ((g.DeleteEdge id).getD g) := by
  simp only [applyWALEntry, jsonEntry]
  rw [DeleteEdge_jsonify]
  cases g.DeleteEdge id <;> rfl

/-- One extra WAL record extends replay by one decoded application. -/
theorem recoverGraph_snoc (es : List LogEntry) (e : LogEntry) :
    recoverGraph none (es ++ [e]) =
    applyWALEntry (recoverGraph none es) (jsonEntry e) := by
  unfold recoverGraph
  rw [List.foldl_append]
  rfl

/-- The replay invariant survives every facade mutation (with a working
disk): after the call, replaying the extended WAL still rebuilds the JSON
image of the live graph. -/
theorem applyMut_preserves_replay (pg : PGraph) (m : Mut)
    (hw : pg.walEnabled = true)
    (hinv : recoverGraph none pg.wal.entries = jsonifyGraph pg.graph) :
    (pg.applyMut m).walEnabled = true ∧
    recoverGraph none (pg.applyMut m).wal.entries = jsonifyGraph (pg.applyMut m).graph := by
  cases m with
  | addNode label ps =>
    simp only [PGraph.applyMut, PGraph.AddNode, hw, if_true, WAL.Append]
    refine ⟨trivial, ?_⟩
    rw [recoverGraph_snoc, hinv,
      show (pg.graph.AddNode label ps).1.id = pg.graph.nextNodeID from
        (installNodeProps_id (NewNode pg.graph.nextNodeID label) ps).trans rfl]
    exact applyWALEntry_addNode_json pg.graph label ps pg.wal.nextIndex
  | addEdge s t label ps =>
    simp only [PGraph.applyMut, PGraph.AddEdge]
    cases hadd : pg.graph.AddEdge s t label ps with
    | none => exact ⟨hw, hinv⟩
    | some res =>
      obtain ⟨edge, g'⟩ := res
      simp only [hw, if_true, WAL.Append]
      refine ⟨trivial, ?_⟩
      rw [recoverGraph_snoc, hinv]
      exact applyWALEntry_addEdge_json pg.graph s t label ps pg.wal.nextIndex edge g' hadd
  | deleteNode id =>
    simp only [PGraph.applyMut, PGraph.DeleteNode]
    cases hdel : pg.graph.DeleteNode id with
    | none => exact ⟨hw, hinv⟩
    | some g' =>
      simp only [hw, if_true, WAL.Append]
      refine ⟨trivial, ?_⟩
      rw [recoverGraph_snoc, hinv, applyWALEntry_deleteNode_json, hdel]
      rfl
  | deleteEdge id =>
    simp only [PGraph.applyMut, PGraph.DeleteEdge]
    cases hdel : pg.graph.DeleteEdge id with
    | none => exact ⟨hw, hinv⟩
    | some g' =>
      simp only [hw, if_true, WAL.Append]
      refine ⟨trivial, ?_⟩
      rw [recoverGraph_snoc, hinv, applyWALEntry_deleteEdge_json, hdel]
      rfl

theorem runMuts_replay_inv (ms : List Mut) :
    (PGraph.runMuts ms).walEnabled = true ∧
    recoverGraph none (PGraph.runMuts ms).wal.entries =
      jsonifyGraph (PGraph.runMuts ms).graph := by
  have hgen : ∀ (ms : List Mut) (pg : PGraph), pg.walEnabled = true →
      recoverGraph none pg.wal.entries = jsonifyGraph pg.graph →
      (ms.foldl PGraph.applyMut pg).walEnabled = true ∧
      recoverGraph none (ms.foldl PGraph.applyMut pg).wal.entries =
        jsonifyGraph (ms.foldl PGraph.applyMut pg).graph := by
    intro ms
    induction ms with
    | nil => exact fun pg hw hinv => ⟨hw, hinv⟩
    | cons m rest ih =>
      intro pg hw hinv
      have hstep := applyMut_preserves_replay pg m hw hinv
      exact ih _ hstep.1 hstep.2
  exact hgen ms PGraph.new rfl rfl

/-- C1 (amended): for every sequence of facade mutations from empty
directories, closing and reopening (recovery = empty snapshot load plus
WAL replay) rebuilds exactly the JSON image of the pre-close graph: the
same NodeCount and EdgeCount, and every node and edge retrievable with the
same id, label, endpoints and adjacency, and with its property values put
through the JSON write/read cycle (strings, booleans and nulls unchanged;
every numeric value reloaded as the float64 with the same value). -/
theorem persistence_roundtrip_json (ms : List Mut) :
    recoverGraph none (PGraph.runMuts ms).wal.entries =
      jsonifyGraph (PGraph.runMuts ms).graph ∧
    (recoverGraph none (PGraph.runMuts ms).wal.entries).NodeCount =
      (PGraph.runMuts ms).graph.NodeCount ∧
    (recoverGraph none (PGraph.runMuts ms).wal.entries).EdgeCount =
      (PGraph.runMuts ms).graph.EdgeCount ∧
    (∀ id, (recoverGraph none (PGraph.runMuts ms).wal.entries).GetNode id =
      ((PGraph.runMuts ms).graph.GetNode id).map jsonNode) ∧
    (∀ id, (recoverGraph none (PGraph.runMuts ms).wal.entries).GetEdge id =
      ((PGraph.runMuts ms).graph.GetEdge id).map jsonEdge) := by
  have h := (runMuts_replay_inv ms).2
  refine ⟨h, ?_, ?_, ?_, ?_⟩
  · rw [h]
    exact List.length_map _ _
  · rw [h]
    exact List.length_map _ _
  · intro id
    rw [h, jsonifyGraph_GetNode]
  · intro id
    rw [h, jsonifyGraph_GetEdge]

/-- C1 (counterexample to bit-identical properties): a node added with the
integer property `age = 30` is recovered with the float64 property
`age = 30.0`; the recovered property map differs from the pre-close one. -/
theorem persistence_roundtrip_counterexample :
    ((recoverGraph none
        (PGraph.runMuts [.addNode "Person" [("age", .vInt 30)]]).wal.entries).GetNode 1).map
      Node.properties = some [("age", .vF64 30)] ∧
    (((PGraph.runMuts [.addNode "Person" [("age", .vInt 30)]]).graph.GetNode 1)).map
      Node.properties = some [("age", .vInt 30)] ∧
    ((recoverGraph none
        (PGraph.runMuts [.addNode "Person" [("age", .vInt 30)]]).wal.entries).GetNode 1).map
      Node.properties ≠
    (((PGraph.runMuts [.addNode "Person" [("age", .vInt 30)]]).graph.GetNode 1)).map
      Node.properties := by
  refine ⟨?_, ?_, ?_⟩ <;> decide

/-! ## C8: lexing idempotence (modulo whitespace)

Every non-string non-illegal token's literal re-lexes to the same token
when followed by a space or the end of input; lexing the space-joined
literals therefore reproduces the stream. -/

theorem char_ne_of_class (p : Char → Bool) (c x : Char) (h : p c = true)
    (hx : p x = false) : ¬ c = x := by
  intro hc
  rw [hc, hx] at h
  cases h

theorem skipWhitespace_cons_of (c : Char) (cs : List Char) (h1 : ¬ c = ' ')
    (h2 : ¬ c = '\t') (h3 : ¬ c = '\n') (h4 : ¬ c = '\r') :
    skipWhitespace (c :: cs) = c :: cs := by
  unfold skipWhitespace
  simp [h1, h2, h3, h4]

theorem nextToken_cons (c : Char) (cs : List Char) (h1 : ¬ c = ' ')
    (h2 : ¬ c = '\t') (h3 : ¬ c = '\n') (h4 : ¬ c = '\r') :
    nextToken (c :: cs) = tokenFrom c cs := by
  unfold nextToken
  rw [skipWhitespace_cons_of c cs h1 h2 h3 h4]

theorem nextToken_space (cs : List Char) : nextToken (' ' :: cs) = nextToken cs := by
  unfold nextToken
  have : skipWhitespace (' ' :: cs) = skipWhitespace cs := by
    conv_lhs => rw [skipWhitespace]
    simp
  rw [this]

theorem lexAll_space (fuel : Nat) (cs : List Char) :
    lexAll fuel (' ' :: cs) = lexAll fuel cs := by
  cases fuel with
  | zero => rfl
  | succ n =>
    unfold lexAll
    rw [nextToken_space]

theorem takeIdent_all_append (cs rest : List Char) (hall : cs.all identChar = true)
    (hrest : rest = [] ∨ ∃ d r, rest = d :: r ∧ identChar d = false) :
    takeIdent (cs ++ rest) = (cs, rest) := by
  induction cs with
  | nil =>
    rcases hrest with rfl | ⟨d, r, rfl, hd⟩
    · rfl
    · simp [takeIdent, hd]
  | cons c cs ih =>
    simp only [List.all_cons, Bool.and_eq_true] at hall
    simp [takeIdent, hall.1, ih hall.2]

theorem takeDigits_all_append (cs rest : List Char) (hall : cs.all isDigit = true)
    (hrest : rest = [] ∨ ∃ d r, rest = d :: r ∧ isDigit d = false) :
    takeDigits (cs ++ rest) = (cs, rest) := by
  induction cs with
  | nil =>
    rcases hrest with rfl | ⟨d, r, rfl, hd⟩
    · rfl
    · simp [takeDigits, hd]
  | cons c cs ih =>
    simp only [List.all_cons, Bool.and_eq_true] at hall
    simp [takeDigits, hall.1, ih hall.2]

theorem takeDigits_spec (cs : List Char) :
    (takeDigits cs).1 ++ (takeDigits cs).2 = cs ∧ (takeDigits cs).1.all isDigit = true ∧
    ∀ d r, (takeDigits cs).2 = d :: r → isDigit d = false := by
  induction cs with
  | nil => exact ⟨rfl, rfl, fun d r h => by cases h⟩
  | cons c cs ih =>
    by_cases hc : isDigit c = true
    · simp only [takeDigits, hc, if_true]
      refine ⟨by simpa using ih.1, by simpa [hc] using ih.2.1, ih.2.2⟩
    · rw [Bool.not_eq_true] at hc
      simp only [takeDigits, hc, Bool.false_eq_true, if_false]
      exact ⟨rfl, rfl, fun d r h => by cases h; exact hc⟩

theorem takeIdent_spec (cs : List Char) :
    (takeIdent cs).1 ++ (takeIdent cs).2 = cs ∧ (takeIdent cs).1.all identChar = true ∧
    ∀ d r, (takeIdent cs).2 = d :: r → identChar d = false := by
  induction cs with
  | nil => exact ⟨rfl, rfl, fun d r h => by cases h⟩
  | cons c cs ih =>
    by_cases hc : identChar c = true
    · simp only [takeIdent, hc, if_true]
      refine ⟨by simpa using ih.1, by simpa [hc] using ih.2.1, ih.2.2⟩
    · rw [Bool.not_eq_true] at hc
      simp only [takeIdent, hc, Bool.false_eq_true, if_false]
      exact ⟨rfl, rfl, fun d r h => by cases h; exact hc⟩

theorem isLetter_false_of_digit (c : Char) (hd : isDigit c = true) : isLetter c = false := by
  simp only [isDigit, Bool.and_eq_true, decide_eq_true_eq] at hd
  rw [Bool.eq_false_iff]
  intro h
  simp only [isLetter, Bool.or_eq_true, Bool.and_eq_true, decide_eq_true_eq] at h
  rcases h with ⟨h1, _⟩ | ⟨h1, _⟩
  · exact absurd (le_trans h1 hd.2) (by decide)
  · exact absurd (le_trans h1 hd.2) (by decide)

theorem takeIdent_letter (c : Char) (cs : List Char) (h : isLetter c = true) :
    identShapeL (takeIdent (c :: cs)).1 = true ∧
    (takeIdent (c :: cs)).1 ++ (takeIdent (c :: cs)).2 = c :: cs ∧
    (takeIdent (c :: cs)).1 ≠ [] := by
  have hid : identChar c = true := by simp [identChar, h]
  obtain ⟨hcat, hall, hstop⟩ := takeIdent_spec (c :: cs)
  have hcons : takeIdent (c :: cs) = (c :: (takeIdent cs).1, (takeIdent cs).2) := by
    simp [takeIdent, hid]
  refine ⟨?_, hcat, by simp [hcons]⟩
  rw [hcons] at hall ⊢
  simp only [List.all_cons, Bool.and_eq_true] at hall
  simp [identShapeL, h, hall.2]

theorem readNumber_digit (c : Char) (cs : List Char) (h : isDigit c = true) :
    numShapeL (readNumber (c :: cs)).1 = true ∧
    (readNumber (c :: cs)).1 ++ (readNumber (c :: cs)).2 = c :: cs ∧
    (readNumber (c :: cs)).1 ≠ [] := by
  obtain ⟨hcat, hall, hstop⟩ := takeDigits_spec (c :: cs)
  have hne : (takeDigits (c :: cs)).1 ≠ [] := by
    simp [takeDigits, h]
  have hself : takeDigits (takeDigits (c :: cs)).1 = ((takeDigits (c :: cs)).1, []) := by
    have := takeDigits_all_append (takeDigits (c :: cs)).1 [] hall (Or.inl rfl)
    rwa [List.append_nil] at this
  unfold readNumber
  rcases hsnd : (takeDigits (c :: cs)).2 with _ | ⟨p, rest2⟩
  · simp only [hsnd]
    refine ⟨?_, ?_, hne⟩
    · simp [numShapeL, hself, hne]
    · rw [hsnd] at hcat
      simpa using hcat
  · simp only [hsnd]
    by_cases hcond : (p = '.' && isDigit (peekCh rest2)) = true
    · rw [if_pos hcond]
      rw [Bool.and_eq_true, decide_eq_true_eq] at hcond
      obtain ⟨hp, hdig⟩ := hcond
      subst hp
      rcases rest2 with _ | ⟨c2, cs2⟩
      · simp only [peekCh, List.headD] at hdig
        exact absurd hdig (by decide)
      · have hc2 : isDigit c2 = true := by simpa [peekCh] using hdig
        obtain ⟨hcat2, hall2, _⟩ := takeDigits_spec (c2 :: cs2)
        have hne2 : (takeDigits (c2 :: cs2)).1 ≠ [] := by
          simp [takeDigits, hc2]
        have hself2 : takeDigits (takeDigits (c2 :: cs2)).1 =
            ((takeDigits (c2 :: cs2)).1, []) := by
          have := takeDigits_all_append (takeDigits (c2 :: cs2)).1 [] hall2 (Or.inl rfl)
          rwa [List.append_nil] at this
        have hfront : takeDigits ((takeDigits (c :: cs)).1 ++
            '.' :: (takeDigits (c2 :: cs2)).1) =
            ((takeDigits (c :: cs)).1, '.' :: (takeDigits (c2 :: cs2)).1) :=
          takeDigits_all_append _ _ hall (Or.inr ⟨'.', _, rfl, by decide⟩)
        refine ⟨?_, ?_, by simp [hne]⟩
        · simp [numShapeL, hfront, hne, hself2, hne2]
        · rw [List.append_assoc, List.cons_append, hcat2, ← hsnd]
          exact hcat
    · rw [if_neg hcond]
      exact ⟨by simp [numShapeL, hself, hne], hcat, hne⟩

theorem readStringBody_rest_le (q : Char) : ∀ cs : List Char,
    (readStringBody q cs).2.length ≤ cs.length
  | [] => by simp [readStringBody]
  | [c] => by by_cases h : c = q <;> simp [readStringBody, h]
  | c :: d :: ds => by
    by_cases h1 : c = q
    · simp [readStringBody, h1]
    · by_cases h2 : (c = '\\' && d = q) = true
      · have ih := readStringBody_rest_le q ds
        simp only [readStringBody, if_neg h1, if_pos h2]
        exact le_trans ih (by simp only [List.length_cons] ; omega)
      · have ih := readStringBody_rest_le q (d :: ds)
        simp only [readStringBody, if_neg h1, if_neg h2]
        exact le_trans ih (by simp only [List.length_cons] ; omega)

theorem lookupKeyword_cases (s : String) :
    lookupKeyword s = .matchT ∨ lookupKeyword s = .whereT ∨
    lookupKeyword s = .returnT ∨ lookupKeyword s = .limitT ∨
    lookupKeyword s = .orderBy ∨ lookupKeyword s = .andT ∨
    lookupKeyword s = .orT ∨ lookupKeyword s = .trueT ∨
    lookupKeyword s = .falseT ∨ lookupKeyword s = .identifier := by
  simp only [lookupKeyword]
  split_ifs <;> simp

theorem litShape_word (lit : String) (h : identShapeL lit.toList = true) :
    litShape (lookupKeyword lit) lit = true := by
  have hd : identShapeL lit.data = true := h
  rcases lookupKeyword_cases lit with h' | h' | h' | h' | h' | h' | h' | h' | h' | h' <;>
    rw [h'] <;> simp [litShape, hd, h']

/-- The value of tokenFrom once the character is none of the switch's
literal cases: the letter / digit / illegal tail of the switch. -/
theorem tokenFrom_default (c : Char) (cs : List Char)
    (h1 : ¬ c = '(') (h2 : ¬ c = ')') (h3 : ¬ c = '[') (h4 : ¬ c = ']')
    (h5 : ¬ c = '\x7b') (h6 : ¬ c = '\x7d') (h7 : ¬ c = ',') (h8 : ¬ c = '.')
    (h9 : ¬ c = ':') (h10 : ¬ c = '*') (h11 : ¬ c = '-') (h12 : ¬ c = '<')
    (h13 : ¬ c = '>') (h14 : ¬ c = '=') (h15 : ¬ c = '!')
    (h16 : ¬ c = '"') (h17 : ¬ c = '\'') :
    tokenFrom c cs =
      (if isLetter c then
        ({ type := lookupKeyword (String.mk (takeIdent (c :: cs)).1),
           literal := String.mk (takeIdent (c :: cs)).1 }, (takeIdent (c :: cs)).2)
      else if isDigit c then
        ({ type := .number, literal := String.mk (readNumber (c :: cs)).1 },
          (readNumber (c :: cs)).2)
      else ({ type := .illegal, literal := String.mk [c] }, cs)) := by
  have hq : ¬ ((c = '"' || c = '\'') = true) := by simp [h16, h17]
  rw [tokenFrom, if_neg h1, if_neg h2, if_neg h3, if_neg h4, if_neg h5, if_neg h6,
      if_neg h7, if_neg h8, if_neg h9, if_neg h10, if_neg h11, if_neg h12,
      if_neg h13, if_neg h14, if_neg h15, if_neg hq]

/-- Single-step analysis of the switch: whatever character is current,
tokenFrom consumes at least that character, and the token it returns is a
string, illegal, or correctly shaped for its type. -/
theorem tokenFrom_spec (c : Char) (cs : List Char) (tok : Token) (rest : List Char)
    (htr : tokenFrom c cs = (tok, rest)) :
    rest.length < (c :: cs).length ∧ tok.type ≠ .eof ∧
      (tok.type = .stringT ∨ tok.type = .illegal ∨
        litShape tok.type tok.literal = true) := by
  by_cases h1 : c = '('
  · rw [h1] at htr
    rw [show tokenFrom '(' cs = ({ type := TokenType.lparen, literal := "(" }, cs)
      from rfl] at htr
    injection htr with he1 he2
    subst he1 ; subst he2
    exact ⟨Nat.lt_succ_self _, by decide, Or.inr (Or.inr (by decide))⟩
  by_cases h2 : c = ')'
  · rw [h2] at htr
    rw [show tokenFrom ')' cs = ({ type := TokenType.rparen, literal := ")" }, cs)
      from rfl] at htr
    injection htr with he1 he2
    subst he1 ; subst he2
    exact ⟨Nat.lt_succ_self _, by decide, Or.inr (Or.inr (by decide))⟩
  by_cases h3 : c = '['
  · rw [h3] at htr
    rw [show tokenFrom '[' cs = ({ type := TokenType.lbracket, literal := "[" }, cs)
      from rfl] at htr
    injection htr with he1 he2
    subst he1 ; subst he2
    exact ⟨Nat.lt_succ_self _, by decide, Or.inr (Or.inr (by decide))⟩
  by_cases h4 : c = ']'
  · rw [h4] at htr
    rw [show tokenFrom ']' cs = ({ type := TokenType.rbracket, literal := "]" }, cs)
      from rfl] at htr
    injection htr with he1 he2
    subst he1 ; subst he2
    exact ⟨Nat.lt_succ_self _, by decide, Or.inr (Or.inr (by decide))⟩
  by_cases h5 : c = '\x7b'
  · rw [h5] at htr
    rw [show tokenFrom '\x7b' cs = ({ type := TokenType.lbrace, literal := "\x7b" }, cs)
      from rfl] at htr
    injection htr with he1 he2
    subst he1 ; subst he2
    exact ⟨Nat.lt_succ_self _, by decide, Or.inr (Or.inr (by decide))⟩
  by_cases h6 : c = '\x7d'
  · rw [h6] at htr
    rw [show tokenFrom '\x7d' cs = ({ type := TokenType.rbrace, literal := "\x7d" }, cs)
      from rfl] at htr
    injection htr with he1 he2
    subst he1 ; subst he2
    exact ⟨Nat.lt_succ_self _, by decide, Or.inr (Or.inr (by decide))⟩
  by_cases h7 : c = ','
  · rw [h7] at htr
    rw [show tokenFrom ',' cs = ({ type := TokenType.comma, literal := "," }, cs)
      from rfl] at htr
    injection htr with he1 he2
    subst he1 ; subst he2
    exact ⟨Nat.lt_succ_self _, by decide, Or.inr (Or.inr (by decide))⟩
  by_cases h8 : c = '.'
  · rw [h8] at htr
    rw [show tokenFrom '.' cs =
        (if peekCh cs = '.' then ({ type := TokenType.dotdot, literal := ".." }, cs.tail)
         else ({ type := TokenType.dot, literal := "." }, cs)) from rfl] at htr
    by_cases hp : peekCh cs = '.'
    · rw [if_pos hp] at htr
      injection htr with he1 he2
      subst he1 ; subst he2
      refine ⟨?_, by decide, Or.inr (Or.inr (by decide))⟩
      simp only [List.length_tail, List.length_cons]
      omega
    · rw [if_neg hp] at htr
      injection htr with he1 he2
      subst he1 ; subst he2
      exact ⟨Nat.lt_succ_self _, by decide, Or.inr (Or.inr (by decide))⟩
  by_cases h9 : c = ':'
  · rw [h9] at htr
    rw [show tokenFrom ':' cs = ({ type := TokenType.colon, literal := ":" }, cs)
      from rfl] at htr
    injection htr with he1 he2
    subst he1 ; subst he2
    exact ⟨Nat.lt_succ_self _, by decide, Or.inr (Or.inr (by decide))⟩
  by_cases h10 : c = '*'
  · rw [h10] at htr
    rw [show tokenFrom '*' cs = ({ type := TokenType.star, literal := "*" }, cs)
      from rfl] at htr
    injection htr with he1 he2
    subst he1 ; subst he2
    exact ⟨Nat.lt_succ_self _, by decide, Or.inr (Or.inr (by decide))⟩
  by_cases h11 : c = '-'
  · rw [h11] at htr
    rw [show tokenFrom '-' cs =
        (if peekCh cs = '>' then ({ type := TokenType.arrow, literal := "->" }, cs.tail)
         else ({ type := TokenType.dash, literal := "-" }, cs)) from rfl] at htr
    by_cases hp : peekCh cs = '>'
    · rw [if_pos hp] at htr
      injection htr with he1 he2
      subst he1 ; subst he2
      refine ⟨?_, by decide, Or.inr (Or.inr (by decide))⟩
      simp only [List.length_tail, List.length_cons]
      omega
    · rw [if_neg hp] at htr
      injection htr with he1 he2
      subst he1 ; subst he2
      exact ⟨Nat.lt_succ_self _, by decide, Or.inr (Or.inr (by decide))⟩
  by_cases h12 : c = '<'
  · rw [h12] at htr
    rw [show tokenFrom '<' cs =
        (if peekCh cs = '-' then ({ type := TokenType.leftArrow, literal := "<-" }, cs.tail)
         else if peekCh cs = '=' then
           ({ type := TokenType.lessEqual, literal := "<=" }, cs.tail)
         else ({ type := TokenType.less, literal := "<" }, cs)) from rfl] at htr
    by_cases hp : peekCh cs = '-'
    · rw [if_pos hp] at htr
      injection htr with he1 he2
      subst he1 ; subst he2
      refine ⟨?_, by decide, Or.inr (Or.inr (by decide))⟩
      simp only [List.length_tail, List.length_cons]
      omega
    · rw [if_neg hp] at htr
      by_cases hp2 : peekCh cs = '='
      · rw [if_pos hp2] at htr
        injection htr with he1 he2
        subst he1 ; subst he2
        refine ⟨?_, by decide, Or.inr (Or.inr (by decide))⟩
        simp only [List.length_tail, List.length_cons]
        omega
      · rw [if_neg hp2] at htr
        injection htr with he1 he2
        subst he1 ; subst he2
        exact ⟨Nat.lt_succ_self _, by decide, Or.inr (Or.inr (by decide))⟩
  by_cases h13 : c = '>'
  · rw [h13] at htr
    rw [show tokenFrom '>' cs =
        (if peekCh cs = '=' then
           ({ type := TokenType.greaterEqual, literal := ">=" }, cs.tail)
         else ({ type := TokenType.greater, literal := ">" }, cs)) from rfl] at htr
    by_cases hp : peekCh cs = '='
    · rw [if_pos hp] at htr
      injection htr with he1 he2
      subst he1 ; subst he2
      refine ⟨?_, by decide, Or.inr (Or.inr (by decide))⟩
      simp only [List.length_tail, List.length_cons]
      omega
    · rw [if_neg hp] at htr
      injection htr with he1 he2
      subst he1 ; subst he2
      exact ⟨Nat.lt_succ_self _, by decide, Or.inr (Or.inr (by decide))⟩
  by_cases h14 : c = '='
  · rw [h14] at htr
    rw [show tokenFrom '=' cs = ({ type := TokenType.equal, literal := "=" }, cs)
      from rfl] at htr
    injection htr with he1 he2
    subst he1 ; subst he2
    exact ⟨Nat.lt_succ_self _, by decide, Or.inr (Or.inr (by decide))⟩
  by_cases h15 : c = '!'
  · rw [h15] at htr
    rw [show tokenFrom '!' cs =
        (if peekCh cs = '=' then ({ type := TokenType.notEqual, literal := "!=" }, cs.tail)
         else ({ type := TokenType.illegal, literal := "!" }, cs)) from rfl] at htr
    by_cases hp : peekCh cs = '='
    · rw [if_pos hp] at htr
      injection htr with he1 he2
      subst he1 ; subst he2
      refine ⟨?_, by decide, Or.inr (Or.inr (by decide))⟩
      simp only [List.length_tail, List.length_cons]
      omega
    · rw [if_neg hp] at htr
      injection htr with he1 he2
      subst he1 ; subst he2
      exact ⟨Nat.lt_succ_self _, by decide, Or.inr (Or.inl rfl)⟩
  by_cases h16 : c = '"'
  · rw [h16] at htr
    rw [show tokenFrom '"' cs =
        ({ type := TokenType.stringT, literal := String.mk (readStringBody '"' cs).1 },
          (readStringBody '"' cs).2) from rfl] at htr
    injection htr with he1 he2
    subst he1 ; subst he2
    exact ⟨Nat.lt_succ_of_le (readStringBody_rest_le '"' cs), by simp, Or.inl rfl⟩
  by_cases h17 : c = '\''
  · rw [h17] at htr
    rw [show tokenFrom '\'' cs =
        ({ type := TokenType.stringT, literal := String.mk (readStringBody '\'' cs).1 },
          (readStringBody '\'' cs).2) from rfl] at htr
    injection htr with he1 he2
    subst he1 ; subst he2
    exact ⟨Nat.lt_succ_of_le (readStringBody_rest_le '\'' cs), by simp, Or.inl rfl⟩
  rw [tokenFrom_default c cs h1 h2 h3 h4 h5 h6 h7 h8 h9 h10 h11 h12 h13 h14 h15
    h16 h17] at htr
  by_cases hl : isLetter c = true
  · rw [if_pos hl] at htr
    injection htr with he1 he2
    subst he1 ; subst he2
    obtain ⟨hsh, hc2, hn⟩ := takeIdent_letter c cs hl
    refine ⟨?_, ?_, Or.inr (Or.inr (litShape_word _ hsh))⟩
    · have hlen := congrArg List.length hc2
      rw [List.length_append] at hlen
      have hz : (takeIdent (c :: cs)).1.length ≠ 0 :=
        fun hz0 => hn (List.length_eq_zero.mp hz0)
      simp only [List.length_cons] at hlen ⊢
      omega
    · rcases lookupKeyword_cases (String.mk (takeIdent (c :: cs)).1) with
        h' | h' | h' | h' | h' | h' | h' | h' | h' | h' <;> simp [h']
  · rw [if_neg hl] at htr
    by_cases hdg : isDigit c = true
    · rw [if_pos hdg] at htr
      injection htr with he1 he2
      subst he1 ; subst he2
      obtain ⟨hsh, hc2, hn⟩ := readNumber_digit c cs hdg
      refine ⟨?_, by simp, Or.inr (Or.inr hsh)⟩
      have hlen := congrArg List.length hc2
      rw [List.length_append] at hlen
      have hz : (readNumber (c :: cs)).1.length ≠ 0 :=
        fun hz0 => hn (List.length_eq_zero.mp hz0)
      simp only [List.length_cons] at hlen ⊢
      omega
    · rw [if_neg hdg] at htr
      injection htr with he1 he2
      subst he1 ; subst he2
      exact ⟨Nat.lt_succ_self _, by simp, Or.inr (Or.inl rfl)⟩

/-- The single-step analysis of NextToken: either the EOF token with
nothing consumed, or at least one character consumed and a token that is a
string, illegal, or correctly shaped for its type. -/
theorem nextToken_spec (input : List Char) :
    ((nextToken input).1.type = .eof ∧ (nextToken input).1.literal = "" ∧
      (nextToken input).2 = []) ∨
    ((nextToken input).2.length < input.length ∧ (nextToken input).1.type ≠ .eof ∧
      ((nextToken input).1.type = .stringT ∨ (nextToken input).1.type = .illegal ∨
        litShape (nextToken input).1.type (nextToken input).1.literal = true)) := by
  induction input with
  | nil => exact Or.inl ⟨rfl, rfl, rfl⟩
  | cons c cs ih =>
    by_cases hws : c = ' ' ∨ c = '\t' ∨ c = '\n' ∨ c = '\r'
    · have hnx : nextToken (c :: cs) = nextToken cs := by
        unfold nextToken
        have hskip : skipWhitespace (c :: cs) = skipWhitespace cs := by
          conv_lhs => rw [skipWhitespace]
          rcases hws with rfl | rfl | rfl | rfl <;> simp
        rw [hskip]
      rw [hnx]
      rcases ih with h | h
      · exact Or.inl h
      · exact Or.inr ⟨Nat.lt_succ_of_lt h.1, h.2⟩
    · push_neg at hws
      obtain ⟨hw1, hw2, hw3, hw4⟩ := hws
      rw [nextToken_cons c cs hw1 hw2 hw3 hw4]
      exact Or.inr (tokenFrom_spec c cs (tokenFrom c cs).1 (tokenFrom c cs).2 rfl)

theorem lexAll_step (fuel : Nat) (input : List Char) :
    lexAll (fuel + 1) input =
      if (nextToken input).1.type = .eof then [(nextToken input).1]
      else (nextToken input).1 :: lexAll fuel (nextToken input).2 := rfl

theorem numShapeL_head (c : Char) (cs : List Char) (h : numShapeL (c :: cs) = true) :
    isDigit c = true := by
  by_cases hc : isDigit c = true
  · exact hc
  · exfalso
    have htd : takeDigits (c :: cs) = ([], c :: cs) := by
      simp only [takeDigits]
      rw [if_neg hc]
    simp [numShapeL, htd] at h

theorem readNumber_all_append (l rest : List Char) (h : numShapeL l = true)
    (hrest : rest = [] ∨ ∃ r, rest = ' ' :: r) :
    readNumber (l ++ rest) = (l, rest) := by
  obtain ⟨hcat, hall, hstop⟩ := takeDigits_spec l
  have hrest' : rest = [] ∨ ∃ d r, rest = d :: r ∧ isDigit d = false := by
    rcases hrest with rfl | ⟨r, rfl⟩
    · exact Or.inl rfl
    · exact Or.inr ⟨' ', r, rfl, by decide⟩
  rcases ht : (takeDigits l).2 with _ | ⟨p, rest2⟩
  · rw [ht, List.append_nil] at hcat
    have htd : takeDigits (l ++ rest) = (l, rest) := by
      refine takeDigits_all_append l rest ?_ hrest'
      rw [← hcat]
      exact hall
    simp only [readNumber, htd]
    rcases hrest with rfl | ⟨r, rfl⟩
    · rfl
    · simp
  · simp only [numShapeL, ht, Bool.and_eq_true, decide_eq_true_eq] at h
    obtain ⟨hne1, hp, hne2, hnil2⟩ := h
    subst hp
    obtain ⟨hcat2, hall2, _⟩ := takeDigits_spec rest2
    rw [hnil2, List.append_nil] at hcat2
    rw [ht] at hcat
    rcases rest2 with _ | ⟨e, es⟩
    · exact absurd hcat2 hne2
    have halld : (e :: es).all isDigit = true := by
      rw [← hcat2]
      exact hall2
    have hed : isDigit e = true := by
      have h0 := halld
      simp only [List.all_cons, Bool.and_eq_true] at h0
      exact h0.1
    have hinput : l ++ rest = (takeDigits l).1 ++ ('.' :: e :: (es ++ rest)) := by
      conv_lhs => rw [← hcat]
      simp
    have htd : takeDigits ((takeDigits l).1 ++ ('.' :: e :: (es ++ rest))) =
        ((takeDigits l).1, '.' :: e :: (es ++ rest)) := by
      refine takeDigits_all_append ((takeDigits l).1) ('.' :: e :: (es ++ rest)) hall ?_
      exact Or.inr ⟨'.', e :: (es ++ rest), rfl, by decide⟩
    have htd2 : takeDigits (e :: (es ++ rest)) = (e :: es, rest) :=
      takeDigits_all_append (e :: es) rest halld hrest'
    have hpeek : peekCh (e :: (es ++ rest)) = e := rfl
    rw [hinput]
    simp only [readNumber, htd]
    simp [hpeek, hed, htd2, hcat]

theorem nextToken_word (lit : String) (rest : List Char)
    (hid : identShapeL lit.toList = true)
    (hrest : rest = [] ∨ ∃ r, rest = ' ' :: r) :
    nextToken (lit.toList ++ rest) =
      ({ type := lookupKeyword lit, literal := lit }, rest) := by
  rcases hl : lit.toList with _ | ⟨c, cs⟩
  · rw [hl] at hid
    exact absurd hid (by decide)
  rw [hl] at hid
  simp only [identShapeL, Bool.and_eq_true] at hid
  obtain ⟨hlet, hall⟩ := hid
  rw [List.cons_append,
      nextToken_cons c (cs ++ rest)
        (char_ne_of_class isLetter c ' ' hlet (by decide))
        (char_ne_of_class isLetter c '\t' hlet (by decide))
        (char_ne_of_class isLetter c '\n' hlet (by decide))
        (char_ne_of_class isLetter c '\r' hlet (by decide)),
      tokenFrom_default c (cs ++ rest)
        (char_ne_of_class isLetter c '(' hlet (by decide))
        (char_ne_of_class isLetter c ')' hlet (by decide))
        (char_ne_of_class isLetter c '[' hlet (by decide))
        (char_ne_of_class isLetter c ']' hlet (by decide))
        (char_ne_of_class isLetter c '\x7b' hlet (by decide))
        (char_ne_of_class isLetter c '\x7d' hlet (by decide))
        (char_ne_of_class isLetter c ',' hlet (by decide))
        (char_ne_of_class isLetter c '.' hlet (by decide))
        (char_ne_of_class isLetter c ':' hlet (by decide))
        (char_ne_of_class isLetter c '*' hlet (by decide))
        (char_ne_of_class isLetter c '-' hlet (by decide))
        (char_ne_of_class isLetter c '<' hlet (by decide))
        (char_ne_of_class isLetter c '>' hlet (by decide))
        (char_ne_of_class isLetter c '=' hlet (by decide))
        (char_ne_of_class isLetter c '!' hlet (by decide))
        (char_ne_of_class isLetter c '"' hlet (by decide))
        (char_ne_of_class isLetter c '\'' hlet (by decide)),
      if_pos hlet]
  have htake : takeIdent (c :: (cs ++ rest)) = (c :: cs, rest) := by
    have h0 : (c :: cs) ++ rest = c :: (cs ++ rest) := rfl
    rw [← h0]
    refine takeIdent_all_append (c :: cs) rest ?_ ?_
    · simp only [List.all_cons, Bool.and_eq_true]
      exact ⟨by simp [identChar, hlet], hall⟩
    · rcases hrest with rfl | ⟨r, rfl⟩
      · exact Or.inl rfl
      · exact Or.inr ⟨' ', r, rfl, by decide⟩
  have hmk : String.mk (c :: cs) = lit := by
    rw [← hl]
    rfl
  simp [htake, hmk]

theorem nextToken_number (lit : String) (rest : List Char)
    (hnum : numShapeL lit.toList = true)
    (hrest : rest = [] ∨ ∃ r, rest = ' ' :: r) :
    nextToken (lit.toList ++ rest) =
      ({ type := TokenType.number, literal := lit }, rest) := by
  rcases hl : lit.toList with _ | ⟨c, cs⟩
  · rw [hl] at hnum
    exact absurd hnum (by decide)
  rw [hl] at hnum
  have hdg : isDigit c = true := numShapeL_head c cs hnum
  have hnl : isLetter c = false := isLetter_false_of_digit c hdg
  have hnl2 : ¬ isLetter c = true := by simp [hnl]
  rw [List.cons_append,
      nextToken_cons c (cs ++ rest)
        (char_ne_of_class isDigit c ' ' hdg (by decide))
        (char_ne_of_class isDigit c '\t' hdg (by decide))
        (char_ne_of_class isDigit c '\n' hdg (by decide))
        (char_ne_of_class isDigit c '\r' hdg (by decide)),
      tokenFrom_default c (cs ++ rest)
        (char_ne_of_class isDigit c '(' hdg (by decide))
        (char_ne_of_class isDigit c ')' hdg (by decide))
        (char_ne_of_class isDigit c '[' hdg (by decide))
        (char_ne_of_class isDigit c ']' hdg (by decide))
        (char_ne_of_class isDigit c '\x7b' hdg (by decide))
        (char_ne_of_class isDigit c '\x7d' hdg (by decide))
        (char_ne_of_class isDigit c ',' hdg (by decide))
        (char_ne_of_class isDigit c '.' hdg (by decide))
        (char_ne_of_class isDigit c ':' hdg (by decide))
        (char_ne_of_class isDigit c '*' hdg (by decide))
        (char_ne_of_class isDigit c '-' hdg (by decide))
        (char_ne_of_class isDigit c '<' hdg (by decide))
        (char_ne_of_class isDigit c '>' hdg (by decide))
        (char_ne_of_class isDigit c '=' hdg (by decide))
        (char_ne_of_class isDigit c '!' hdg (by decide))
        (char_ne_of_class isDigit c '"' hdg (by decide))
        (char_ne_of_class isDigit c '\'' hdg (by decide)),
      if_neg hnl2, if_pos hdg]
  have hrn : readNumber (c :: (cs ++ rest)) = (c :: cs, rest) := by
    have h0 : (c :: cs) ++ rest = c :: (cs ++ rest) := rfl
    rw [← h0]
    exact readNumber_all_append (c :: cs) rest hnum hrest
  have hmk : String.mk (c :: cs) = lit := by
    rw [← hl]
    rfl
  simp [hrn, hmk]

theorem nextToken_shaped (t : TokenType) (lit : String) (rest : List Char)
    (ht : t ≠ TokenType.eof) (hsh : litShape t lit = true)
    (hrest : rest = [] ∨ ∃ r, rest = ' ' :: r) :
    nextToken (lit.toList ++ rest) = ({ type := t, literal := lit }, rest) := by
  cases t with
  | eof => exact absurd rfl ht
  | illegal => exact absurd hsh (by simp [litShape])
  | stringT => exact absurd hsh (by simp [litShape])
  | identifier =>
    simp only [litShape, Bool.and_eq_true, beq_iff_eq] at hsh
    rw [nextToken_word lit rest hsh.1 hrest, hsh.2]
  | matchT =>
    simp only [litShape, Bool.and_eq_true, beq_iff_eq] at hsh
    rw [nextToken_word lit rest hsh.1 hrest, hsh.2]
  | whereT =>
    simp only [litShape, Bool.and_eq_true, beq_iff_eq] at hsh
    rw [nextToken_word lit rest hsh.1 hrest, hsh.2]
  | returnT =>
    simp only [litShape, Bool.and_eq_true, beq_iff_eq] at hsh
    rw [nextToken_word lit rest hsh.1 hrest, hsh.2]
  | limitT =>
    simp only [litShape, Bool.and_eq_true, beq_iff_eq] at hsh
    rw [nextToken_word lit rest hsh.1 hrest, hsh.2]
  | orderBy =>
    simp only [litShape, Bool.and_eq_true, beq_iff_eq] at hsh
    rw [nextToken_word lit rest hsh.1 hrest, hsh.2]
  | andT =>
    simp only [litShape, Bool.and_eq_true, beq_iff_eq] at hsh
    rw [nextToken_word lit rest hsh.1 hrest, hsh.2]
  | orT =>
    simp only [litShape, Bool.and_eq_true, beq_iff_eq] at hsh
    rw [nextToken_word lit rest hsh.1 hrest, hsh.2]
  | trueT =>
    simp only [litShape, Bool.and_eq_true, beq_iff_eq] at hsh
    rw [nextToken_word lit rest hsh.1 hrest, hsh.2]
  | falseT =>
    simp only [litShape, Bool.and_eq_true, beq_iff_eq] at hsh
    rw [nextToken_word lit rest hsh.1 hrest, hsh.2]
  | number =>
    exact nextToken_number lit rest hsh hrest
  | equal =>
    have he : lit = "=" := by simpa [litShape] using hsh
    subst he
    rcases hrest with rfl | ⟨r, rfl⟩ <;> rfl
  | notEqual =>
    have he : lit = "!=" := by simpa [litShape] using hsh
    subst he
    rcases hrest with rfl | ⟨r, rfl⟩ <;> rfl
  | less =>
    have he : lit = "<" := by simpa [litShape] using hsh
    subst he
    rcases hrest with rfl | ⟨r, rfl⟩ <;> rfl
  | lessEqual =>
    have he : lit = "<=" := by simpa [litShape] using hsh
    subst he
    rcases hrest with rfl | ⟨r, rfl⟩ <;> rfl
  | greater =>
    have he : lit = ">" := by simpa [litShape] using hsh
    subst he
    rcases hrest with rfl | ⟨r, rfl⟩ <;> rfl
  | greaterEqual =>
    have he : lit = ">=" := by simpa [litShape] using hsh
    subst he
    rcases hrest with rfl | ⟨r, rfl⟩ <;> rfl
  | lparen =>
    have he : lit = "(" := by simpa [litShape] using hsh
    subst he
    rcases hrest with rfl | ⟨r, rfl⟩ <;> rfl
  | rparen =>
    have he : lit = ")" := by simpa [litShape] using hsh
    subst he
    rcases hrest with rfl | ⟨r, rfl⟩ <;> rfl
  | lbracket =>
    have he : lit = "[" := by simpa [litShape] using hsh
    subst he
    rcases hrest with rfl | ⟨r, rfl⟩ <;> rfl
  | rbracket =>
    have he : lit = "]" := by simpa [litShape] using hsh
    subst he
    rcases hrest with rfl | ⟨r, rfl⟩ <;> rfl
  | lbrace =>
    have he : lit = "\x7b" := by simpa [litShape] using hsh
    subst he
    rcases hrest with rfl | ⟨r, rfl⟩ <;> rfl
  | rbrace =>
    have he : lit = "\x7d" := by simpa [litShape] using hsh
    subst he
    rcases hrest with rfl | ⟨r, rfl⟩ <;> rfl
  | comma =>
    have he : lit = "," := by simpa [litShape] using hsh
    subst he
    rcases hrest with rfl | ⟨r, rfl⟩ <;> rfl
  | dot =>
    have he : lit = "." := by simpa [litShape] using hsh
    subst he
    rcases hrest with rfl | ⟨r, rfl⟩ <;> rfl
  | colon =>
    have he : lit = ":" := by simpa [litShape] using hsh
    subst he
    rcases hrest with rfl | ⟨r, rfl⟩ <;> rfl
  | arrow =>
    have he : lit = "->" := by simpa [litShape] using hsh
    subst he
    rcases hrest with rfl | ⟨r, rfl⟩ <;> rfl
  | leftArrow =>
    have he : lit = "<-" := by simpa [litShape] using hsh
    subst he
    rcases hrest with rfl | ⟨r, rfl⟩ <;> rfl
  | dash =>
    have he : lit = "-" := by simpa [litShape] using hsh
    subst he
    rcases hrest with rfl | ⟨r, rfl⟩ <;> rfl
  | star =>
    have he : lit = "*" := by simpa [litShape] using hsh
    subst he
    rcases hrest with rfl | ⟨r, rfl⟩ <;> rfl
  | dotdot =>
    have he : lit = ".." := by simpa [litShape] using hsh
    subst he
    rcases hrest with rfl | ⟨r, rfl⟩ <;> rfl

theorem litShape_nonempty (t : TokenType) (lit : String) (ht : t ≠ TokenType.eof)
    (h : litShape t lit = true) : lit.toList ≠ [] := by
  intro h0
  have hempty : lit = "" := by
    cases lit with
    | mk d =>
      have hd : d = [] := h0
      rw [hd]
  cases t <;> first
  | exact ht rfl
  | exact absurd h (by rw [hempty] ; decide)

theorem lexAll_structure : ∀ (fuel : Nat) (input : List Char), input.length < fuel →
    ∃ ts, lexAll fuel input = ts ++ [{ type := TokenType.eof, literal := "" }] ∧
      ∀ tok ∈ ts, tok.type ≠ TokenType.eof ∧
        (tok.type = TokenType.stringT ∨ tok.type = TokenType.illegal ∨
          litShape tok.type tok.literal = true)
  | 0, _, hf => absurd hf (Nat.not_lt_zero _)
  | fuel + 1, input, hf => by
    rcases nextToken_spec input with ⟨h1, h2, _⟩ | ⟨hlen, hne, hshape⟩
    · refine ⟨[], ?_, by simp⟩
      rw [lexAll_step, if_pos h1]
      cases hT : (nextToken input).1 with
      | mk ty li =>
        rw [hT] at h1 h2
        have h1x : ty = TokenType.eof := h1
        have h2x : li = "" := h2
        rw [h1x, h2x]
        rfl
    · have hf2 : (nextToken input).2.length < fuel := by omega
      obtain ⟨ts, hts, hall⟩ := lexAll_structure fuel (nextToken input).2 hf2
      refine ⟨(nextToken input).1 :: ts, ?_, ?_⟩
      · rw [lexAll_step, if_neg hne, hts]
        rfl
      · intro tok htok
        rcases List.mem_cons.mp htok with rfl | hmem
        · exact ⟨hne, hshape⟩
        · exact hall tok hmem

theorem lexAll_render : ∀ (ts : List Token) (fuel : Nat),
    (renderChars ts).length < fuel →
    (∀ tok ∈ ts, tok.type ≠ TokenType.eof ∧ litShape tok.type tok.literal = true) →
    lexAll fuel (renderChars ts) = ts ++ [{ type := TokenType.eof, literal := "" }]
  | [], fuel, hf, _ => by
    cases fuel with
    | zero => exact absurd hf (Nat.not_lt_zero _)
    | succ f => rfl
  | [t], fuel, hf, hts => by
    obtain ⟨hteof, htsh⟩ := hts t (by simp)
    have hlit : t.literal.toList ≠ [] := litShape_nonempty t.type t.literal hteof htsh
    have hrc : renderChars [t] = t.literal.toList := rfl
    rw [hrc] at hf ⊢
    have hlen1 : 1 ≤ t.literal.toList.length := by
      rcases hl2 : t.literal.toList with _ | ⟨a, as⟩
      · exact absurd hl2 hlit
      · simp
    cases fuel with
    | zero => exact absurd hf (Nat.not_lt_zero _)
    | succ f =>
      cases f with
      | zero => omega
      | succ f2 =>
        have hnt := nextToken_shaped t.type t.literal [] hteof htsh (Or.inl rfl)
        rw [List.append_nil] at hnt
        have htail : lexAll (f2 + 1) ([] : List Char) =
            [{ type := TokenType.eof, literal := "" }] := rfl
        rw [lexAll_step, hnt, if_neg hteof, htail]
        rfl
  | t :: t2 :: ts, fuel, hf, hts => by
    obtain ⟨hteof, htsh⟩ := hts t (by simp)
    have hlit : t.literal.toList ≠ [] := litShape_nonempty t.type t.literal hteof htsh
    have hrc : renderChars (t :: t2 :: ts) =
        t.literal.toList ++ ' ' :: renderChars (t2 :: ts) := rfl
    rw [hrc] at hf ⊢
    have hlen1 : 1 ≤ t.literal.toList.length := by
      rcases hl2 : t.literal.toList with _ | ⟨a, as⟩
      · exact absurd hl2 hlit
      · simp
    cases fuel with
    | zero => exact absurd hf (Nat.not_lt_zero _)
    | succ f =>
      have hnt := nextToken_shaped t.type t.literal (' ' :: renderChars (t2 :: ts))
        hteof htsh (Or.inr ⟨_, rfl⟩)
      rw [lexAll_step, hnt, if_neg hteof, lexAll_space]
      have hflt : (renderChars (t2 :: ts)).length < f := by
        have h0 := hf
        simp only [List.length_append, List.length_cons] at h0
        omega
      rw [lexAll_render (t2 :: ts) f hflt (fun tok htok => hts tok (by simp [htok]))]
      rfl

/-- C8 (corrected): lexing is idempotent modulo whitespace provided the
produced tokens contain no string-literal and no illegal tokens: re-lexing
the space-separated concatenation of the produced tokens' literals yields
exactly the same token stream, EOF token included. For string literals the
original claim fails, because NextToken emits the literal without its
quotes (see the accompanying counterexample). -/
theorem lex_idempotent_modulo_ws (s : String)
    (hok : ∀ tok ∈ tokensOf s,
      tok.type ≠ TokenType.stringT ∧ tok.type ≠ TokenType.illegal) :
    lex (renderTokens (tokensOf s)) = lex s := by
  obtain ⟨ts, hts, hall⟩ := lexAll_structure (s.length + 1) s.toList
    (Nat.lt_succ_of_le (Nat.le_of_eq rfl))
  have hlex : lex s = ts ++ [{ type := TokenType.eof, literal := "" }] := hts
  have htok : tokensOf s = ts := by
    rw [tokensOf, hlex]
    simp
  have hshaped : ∀ tok ∈ ts, tok.type ≠ TokenType.eof ∧
      litShape tok.type tok.literal = true := by
    intro tok htk
    obtain ⟨hne, hsh⟩ := hall tok htk
    rcases hsh with h | h | h
    · exact absurd h (hok tok (by rw [htok] ; exact htk)).1
    · exact absurd h (hok tok (by rw [htok] ; exact htk)).2
    · exact ⟨hne, h⟩
  rw [htok]
  have hstep : lex (renderTokens ts) =
      lexAll ((renderTokens ts).length + 1) (renderChars ts) := rfl
  have hfuel : (renderChars ts).length < (renderTokens ts).length + 1 :=
    Nat.lt_succ_of_le (Nat.le_of_eq rfl)
  rw [hstep, lexAll_render ts ((renderTokens ts).length + 1) hfuel hshaped, hlex]

/-- Witness: the corrected idempotence theorem applied to a concrete query
text containing keyword, punctuation, identifier and number tokens. -/
theorem lex_idempotent_modulo_ws_witness :
    (∀ tok ∈ tokensOf "MATCH (a) WHERE a.age >= 2.5 RETURN a",
      tok.type ≠ TokenType.stringT ∧ tok.type ≠ TokenType.illegal) ∧
    lex (renderTokens (tokensOf "MATCH (a) WHERE a.age >= 2.5 RETURN a")) =
      lex "MATCH (a) WHERE a.age >= 2.5 RETURN a" :=
  ⟨by decide,
   lex_idempotent_modulo_ws "MATCH (a) WHERE a.age >= 2.5 RETURN a" (by decide)⟩

/-- C8 counterexample: a single-quoted string literal lexes to a string
token whose literal has lost its quotes, so re-lexing the rendered literals
produces an identifier token where the original stream had a string token:
the two streams differ in their token types. -/
theorem lex_not_idempotent_for_strings :
    (tokensOf "'abc'").map Token.type = [TokenType.stringT] ∧
    (tokensOf (renderTokens (tokensOf "'abc'"))).map Token.type =
      [TokenType.identifier] := by decide

end RdgDB
